import Mathlib

/-!
Verification of the asana-resource-exporter core against its specification.

The Go source is shallowly embedded: pure functions become Lean functions,
filesystem and network effects become explicit state passing, machine
integers become `Int`/`Nat` with explicit range handling where Go semantics
(truncating division, 64-bit wraparound) matter.
-/

namespace AsanaExporter

/-- Errors produced by the embedded application code.  `wrap` models
`fmt.Errorf("...: %w", err)`, `exportErrors` models the composite error built
by `finish`. -/
inductive GoError where
  | canceled
  | invalidEndpoint
  | rateLimitWait
  | jsonSyntax
  | jsonType (what : String)
  | notDirectory (name : String)
  | mkdirFail
  | createFail (path : String)
  | traversal
  | transport
  | nilDeref
  | wrap (ctx : String) (inner : GoError)
  | exportErrors (count : Nat) (first : GoError)
  deriving Repr, DecidableEq

/-- Token-bucket limiter state as configured by `rate.NewLimiter(limit, burst)`
(package golang.org/x/time/rate): `limit` is the refill rate in tokens per
second (a float64 in Go, modelled as a rational), `burst` the bucket size. -/
structure Limiter where
  limit : Rat
  burst : Int
  deriving Repr, DecidableEq

/-- `rate.NewLimiter` stores the given refill rate and burst unchanged. -/
def rateNewLimiter (l : Rat) (b : Int) : Limiter :=
  { limit := l, burst := b }

/-- The fetch client (src/internal/client.go, type `Client`): token plus
rate limiter.  The embedded `http.Client` carries no data relevant here. -/
structure Client where
  token : String
  limiter : Limiter
  deriving Repr, DecidableEq

/-- `NewClient` (src/internal/client.go lines 36-43).  Go computes
`rate.Limit(r/60)` where `r` is an `int`, so `r/60` is Go integer division
(truncation toward zero) performed before the conversion to float64.
The function always returns a non-nil client and a nil error, modelled as
the pair of the client and `none`. -/
def NewClient (t : String) (r : Int) : Client × Option GoError :=
  ({ token := t, limiter := rateNewLimiter ((Int.tdiv r 60 : Int) : Rat) r }, none)

/-- `finish` (src/unnamed/part_002 lines 162-181): after waiting for in-flight
work it aggregates the collected errors.  A non-empty list becomes the
composite error `fmt.Errorf("encountered %d errors during export, first
error: %w", len(errs), errs[0])`; an empty list returns nil whether or not
the context was cancelled. -/
def finish (_ctxCanceled : Bool) (errs : List GoError) : Option GoError :=
  if errs.length > 0 then
    some (GoError.exportErrors errs.length (errs.headD GoError.canceled))
  else
    none

instance {ε α : Type} [DecidableEq ε] [DecidableEq α] : DecidableEq (Except ε α) := fun a b =>
  match a, b with
  | Except.ok x, Except.ok y =>
    if h : x = y then isTrue (by rw [h]) else isFalse (by intro hc; injection hc; exact h (by assumption))
  | Except.error x, Except.error y =>
    if h : x = y then isTrue (by rw [h]) else isFalse (by intro hc; injection hc; exact h (by assumption))
  | Except.ok _, Except.error _ => isFalse (by intro hc; exact Except.noConfusion hc)
  | Except.error _, Except.ok _ => isFalse (by intro hc; exact Except.noConfusion hc)

/-- A resource record (src/cmd/app/export.go lines 18-22 and the identical
declarations in the other revisions): gid, name and resource type, all
strings, with the JSON keys `gid`, `name`, `resource_type`. -/
structure Resource where
  gid : String
  name : String
  resourceType : String
  deriving Repr, DecidableEq

/-- Hex digit character (lowercase), for JSON `\u00xx` escapes. -/
def hexDigitChar (n : Nat) : Char :=
  if n < 10 then Char.ofNat (48 + n) else Char.ofNat (97 + (n - 10))

/-- `\uXXXX` escape of a character with code point below 0x10000. -/
def uEscape (c : Char) : List Char :=
  let n := c.toNat
  ['\\', 'u', hexDigitChar (n / 4096 % 16), hexDigitChar (n / 256 % 16),
    hexDigitChar (n / 16 % 16), hexDigitChar (n % 16)]

/-- How encoding/json escapes one character inside a string literal
(Encoder defaults: HTML escaping on, so `<`, `>`, `&` become `\u00xx`). -/
def jsonEscapeChar (c : Char) : List Char :=
  if c = '"' then ['\\', '"']
  else if c = '\\' then ['\\', '\\']
  else if c = '\n' then ['\\', 'n']
  else if c = '\r' then ['\\', 'r']
  else if c = '\t' then ['\\', 't']
  else if c = '<' || c = '>' || c = '&' then uEscape c
  else if c.toNat < 32 || c.toNat = 0x2028 || c.toNat = 0x2029 then uEscape c
  else [c]

/-- JSON string literal for `s`, as a character list. -/
def jsonEncodeString (s : String) : List Char :=
  '"' :: ((s.data.map jsonEscapeChar).flatten ++ ['"'])

/-- JSON object produced by encoding/json for a `Resource` (struct field
order gid, name, resource_type). -/
def jsonEncodeResource (rc : Resource) : List Char :=
  '{' :: (jsonEncodeString "gid" ++ ':' :: jsonEncodeString rc.gid ++
    ',' :: jsonEncodeString "name" ++ ':' :: jsonEncodeString rc.name ++
    ',' :: jsonEncodeString "resource_type" ++ ':' :: jsonEncodeString rc.resourceType ++
    ['}'])

/-- File content written by `json.NewEncoder(file).Encode(rc)`: the JSON
object followed by a newline. -/
def encodeResourceLine (rc : Resource) : String :=
  String.mk (jsonEncodeResource rc ++ ['\n'])

/-- The `permissions` constant (0o755) shared by every revision. -/
def permissions : Nat := 0o755

/- ### Unix path model: filepath.Clean / filepath.Abs -/

/-- Split a character list on a separator character, keeping empty pieces
(as `strings.Split` does). -/
def splitChars (sep : Char) : List Char → List Char → List String
  | [], cur => [String.mk cur.reverse]
  | c :: rest, cur =>
    if c = sep then String.mk cur.reverse :: splitChars sep rest []
    else splitChars sep rest (c :: cur)

/-- Split a path string on `/`. -/
def splitOnSlash (s : String) : List String :=
  splitChars '/' s.data []

/-- Join components with `/`. -/
def joinSlash : List String → String
  | [] => ""
  | [x] => x
  | x :: rest => x ++ "/" ++ joinSlash rest

/-- Whether a path is absolute (starts with `/`). -/
def isAbsPath (s : String) : Bool :=
  match s.data with
  | '/' :: _ => true
  | _ => false

/-- One step of the `filepath.Clean` stack machine: skip empty and `.`
components, resolve `..` against the stack (dropping it at the root of a
rooted path, keeping it at the front of a relative path). -/
def cleanStep (rooted : Bool) (acc : List String) (c : String) : List String :=
  if c = "" || c = "." then acc
  else if c = ".." then
    if rooted then acc.dropLast
    else if acc.isEmpty || acc.getLast? == some ".." then acc ++ [".."]
    else acc.dropLast
  else acc ++ [c]

/-- `filepath.Clean` for unix paths (path/filepath, used by `storeResource`
in src/unnamed/part_004). -/
def goClean (path : String) : String :=
  if path = "" then "."
  else
    let rooted := isAbsPath path
    let out := (splitOnSlash path).foldl (cleanStep rooted) []
    if rooted then "/" ++ joinSlash out
    else if out.isEmpty then "." else joinSlash out

/-- `filepath.Abs` for unix: clean the path if it is already absolute,
otherwise join it onto the working directory and clean
(`filepath.Join(wd, path)`). -/
def goAbs (cwd path : String) : String :=
  if isAbsPath path then goClean path else goClean (cwd ++ "/" ++ path)

/-- `strings.HasPrefix`. -/
def goHasPrefix (s pre : String) : Bool :=
  pre.data.isPrefixOf s.data

/- ### File system model

A file system is an association list from reversed absolute-path component
lists to nodes; `["b", "a"]` stands for `/a/b`, and the root `[]` is always
a directory.  The newest binding shadows older ones. -/

/-- A node: regular file (permission bits, content) or directory
(permission bits). -/
inductive FNode where
  | file (perm : Nat) (content : String)
  | dir (perm : Nat)
  deriving Repr, DecidableEq

abbrev Fs := List (List String × FNode)

/-- Look a path up in the association list. -/
def fsFind : Fs → List String → Option FNode
  | [], _ => none
  | (q, nd) :: rest, p => if q = p then some nd else fsFind rest p

/-- `os.Stat`, modelled as existence plus node kind; the root is a
directory. -/
def fsGet (fs : Fs) (p : List String) : Option FNode :=
  if p = [] then some (FNode.dir 0) else fsFind fs p

/-- Record a node at a path (shadowing any previous binding). -/
def fsSet (fs : Fs) (p : List String) (nd : FNode) : Fs :=
  (p, nd) :: fs

/-- Whether a regular file sits at `p`. -/
def isFileAt (fs : Fs) (p : List String) : Bool :=
  match fsGet fs p with
  | some (FNode.file _ _) => true
  | _ => false

/-- The reversed component list of a cleaned absolute path string. -/
def absParts (s : String) : List String :=
  ((splitOnSlash s).filter (fun c => c ≠ "")).reverse

/-- Resolve a (possibly relative) path against the working directory into
reversed components. -/
def resolvePath (cwd dst : String) : List String :=
  absParts (goAbs cwd dst)

/-- `os.MkdirAll(perm)`: an existing directory is fine, an existing
non-directory is an error, otherwise the parents are ensured first and the
directory is created with `perm`.  Nothing is created when the call fails
(the failure is a stat of an existing non-directory, which happens before
any creation). -/
def mkdirAll (fs : Fs) (p : List String) (perm : Nat) : Except GoError Fs :=
  match p with
  | [] => Except.ok fs
  | _ :: parent =>
    match fsGet fs p with
    | some (FNode.dir _) => Except.ok fs
    | some (FNode.file _ _) => Except.error GoError.mkdirFail
    | none =>
      match mkdirAll fs parent perm with
      | Except.error e => Except.error e
      | Except.ok fs1 => Except.ok (fsSet fs1 p (FNode.dir perm))

/-- `resourceDir` (src/unnamed/part_004 lines 125-147): stat the target; if
missing, `MkdirAll` it with 0o755 and return nil; if present but not a
directory, fail with the "not directory" error; otherwise nil.  The first
result component is the returned error, the second the file system after
the call. -/
def resourceDir4 (cwd : String) (fs : Fs) (dst : String) : Except GoError Unit × Fs :=
  let p := resolvePath cwd dst
  match fsGet fs p with
  | none =>
    match mkdirAll fs p permissions with
    | Except.error e => (Except.error (GoError.wrap "make dir" e), fs)
    | Except.ok fs1 => (Except.ok (), fs1)
  | some (FNode.dir _) => (Except.ok (), fs)
  | some (FNode.file _ _) => (Except.error (GoError.notDirectory (p.headD "")), fs)

/-- `storeResource` (src/unnamed/part_004 lines 168-208): clean the
filename, compare the absolute paths of the data directory and of the file
with `strings.HasPrefix`, and only then `os.OpenFile` with
`O_WRONLY|O_CREATE|O_TRUNC` and mode 0o600 and write the JSON encoding.
`OpenFile` does not create parent directories; opening a directory for
writing fails; truncating an existing file keeps its permission bits. -/
def storeResource4 (cwd dataDir : String) (rc : Resource) (filename : String)
    (fs : Fs) : Except GoError Unit × Fs :=
  let cleanPath := goClean filename
  let dataDirAbs := goAbs cwd dataDir
  let fileAbs := goAbs cwd cleanPath
  if !goHasPrefix fileAbs dataDirAbs then
    (Except.error GoError.traversal, fs)
  else
    let p := absParts fileAbs
    match p with
    | [] => (Except.error (GoError.createFail cleanPath), fs)
    | _ :: parent =>
      match fsGet fs p with
      | some (FNode.dir _) => (Except.error (GoError.createFail cleanPath), fs)
      | some (FNode.file perm _) =>
        (Except.ok (), fsSet fs p (FNode.file perm (encodeResourceLine rc)))
      | none =>
        match fsGet fs parent with
        | some (FNode.dir _) =>
          (Except.ok (), fsSet fs p (FNode.file 0o600 (encodeResourceLine rc)))
        | _ => (Except.error (GoError.createFail cleanPath), fs)

/-- All proper suffixes of the reversed path (the ancestor chain) are free
of regular files; this is the condition under which `MkdirAll` can create
the whole chain. -/
def ancestorsClear (fs : Fs) (p : List String) : Bool :=
  (p.tails.drop 1).all (fun t => !isFileAt fs t)

/-- The spec-side notion of a path lying inside a root directory: it is the
root itself or a descendant of it (`Modelled from the spec words`, used to
compare the claim against the code-side prefix check). -/
def specInsideRoot (root p : String) : Bool :=
  p = root || goHasPrefix p (root ++ "/")

/- ### JSON model (encoding/json as used by `resources` and `storeResource`) -/

/-- A decoded JSON document.  Numbers keep their literal text; no claim
inspects numeric values. -/
inductive JVal where
  | null
  | bool (b : Bool)
  | num (lit : String)
  | str (s : String)
  | arr (elems : List JVal)
  | obj (fields : List (String × JVal))
  deriving Repr

/-- JSON insignificant whitespace. -/
def isJsonWs (c : Char) : Bool :=
  c = ' ' || c = '\t' || c = '\n' || c = '\r'

/-- Drop leading JSON whitespace. -/
def skipWs : List Char → List Char
  | [] => []
  | c :: rest => if isJsonWs c then skipWs rest else c :: rest

/-- Value of a hex digit. -/
def hexVal (c : Char) : Option Nat :=
  if '0' ≤ c && c ≤ '9' then some (c.toNat - 48)
  else if 'a' ≤ c && c ≤ 'f' then some (c.toNat - 97 + 10)
  else if 'A' ≤ c && c ≤ 'F' then some (c.toNat - 65 + 10)
  else none

/-- U+FFFD, written by the decoder for unpaired surrogate escapes. -/
def replacementChar : Char := Char.ofNat 0xFFFD

/-- Body of a JSON string literal after the opening quote, as the Go
decoder handles it: plain characters (control characters are a syntax
error), the short escapes, and `\uXXXX` with surrogate-pair combination.
`pending` carries a high surrogate waiting for its low half; an unpaired
surrogate becomes U+FFFD, and the token after it is then processed on its
own, exactly as in Go (which does not advance past a failed pair). -/
def psb : List Char → Option Nat → List Char → Option (String × List Char)
  | [], _, _ => none
  | '"' :: rest, pending, acc =>
    match pending with
    | none => some (String.mk acc.reverse, rest)
    | some _ => some (String.mk (replacementChar :: acc).reverse, rest)
  | '\\' :: 'u' :: a :: b :: c :: d :: rest, pending, acc =>
    match hexVal a, hexVal b, hexVal c, hexVal d with
    | some va, some vb, some vc, some vd =>
      let n := va * 4096 + vb * 256 + vc * 16 + vd
      match pending with
      | some hi =>
        if 0xDC00 ≤ n ∧ n ≤ 0xDFFF then
          psb rest none
            (Char.ofNat (0x10000 + (hi - 0xD800) * 1024 + (n - 0xDC00)) :: acc)
        else if 0xD800 ≤ n ∧ n ≤ 0xDBFF then
          psb rest (some n) (replacementChar :: acc)
        else
          psb rest none (Char.ofNat n :: replacementChar :: acc)
      | none =>
        if 0xD800 ≤ n ∧ n ≤ 0xDBFF then psb rest (some n) acc
        else if 0xDC00 ≤ n ∧ n ≤ 0xDFFF then psb rest none (replacementChar :: acc)
        else psb rest none (Char.ofNat n :: acc)
    | _, _, _, _ => none
  | '\\' :: e :: rest, pending, acc =>
    let acc1 := match pending with
      | some _ => replacementChar :: acc
      | none => acc
    if e = '"' then psb rest none ('"' :: acc1)
    else if e = '\\' then psb rest none ('\\' :: acc1)
    else if e = '/' then psb rest none ('/' :: acc1)
    else if e = 'b' then psb rest none (Char.ofNat 8 :: acc1)
    else if e = 'f' then psb rest none (Char.ofNat 12 :: acc1)
    else if e = 'n' then psb rest none ('\n' :: acc1)
    else if e = 'r' then psb rest none ('\r' :: acc1)
    else if e = 't' then psb rest none ('\t' :: acc1)
    else none
  | c :: rest, pending, acc =>
    let acc1 := match pending with
      | some _ => replacementChar :: acc
      | none => acc
    if c.toNat < 32 then none else psb rest none (c :: acc1)

/-- Entry point of the string-literal body parser. -/
def parseStringBody (cs : List Char) (acc : List Char) : Option (String × List Char) :=
  psb cs none acc

/-- Leading decimal digits of a character list. -/
def takeDigits : List Char → List Char × List Char
  | [] => ([], [])
  | c :: rest =>
    if '0' ≤ c && c ≤ '9' then
      let (ds, r) := takeDigits rest
      (c :: ds, r)
    else ([], c :: rest)

/-- JSON number grammar: `-? int frac? exp?` with a non-padded integer
part.  Only the literal text is kept. -/
def parseNumber (cs : List Char) : Option (String × List Char) :=
  let (sign, cs1) := match cs with
    | '-' :: rest => (['-'], rest)
    | _ => ([], cs)
  match takeDigits cs1 with
  | ([], _) => none
  | (ds, cs2) =>
    if ds.length > 1 ∧ ds.headD ' ' = '0' then none
    else
      let (frac, cs3) := match cs2 with
        | '.' :: rest =>
          match takeDigits rest with
          | ([], _) => (none, cs2)
          | (fs, r) => (some ('.' :: fs), r)
        | _ => (none, cs2)
      match frac, cs2 with
      | none, '.' :: _ => none
      | _, _ =>
        let fracL := frac.getD []
        let (expPart, cs4) : Option (List Char) × List Char := match cs3 with
          | e :: rest =>
            if e = 'e' ∨ e = 'E' then
              let (esign, rest2) : List Char × List Char := match rest with
                | '+' :: r => (['+'], r)
                | '-' :: r => (['-'], r)
                | _ => ([], rest)
              match takeDigits rest2 with
              | ([], _) => (none, cs3)
              | (es, r) => (some (e :: (esign ++ es)), r)
            else (none, cs3)
          | [] => (none, cs3)
        match expPart, cs3 with
        | none, e :: _ =>
          if e = 'e' ∨ e = 'E' then none
          else some (String.mk (sign ++ ds ++ fracL), cs3)
        | _, _ =>
          some (String.mk (sign ++ ds ++ fracL ++ expPart.getD []), cs4)

mutual

/-- Fuel-indexed JSON value parser (the fuel strictly dominates the number
of recursive calls; the top-level entry point supplies enough). -/
def parseVal : Nat → List Char → Option (JVal × List Char)
  | 0, _ => none
  | fuel + 1, cs =>
    match skipWs cs with
    | 'n' :: 'u' :: 'l' :: 'l' :: rest => some (JVal.null, rest)
    | 't' :: 'r' :: 'u' :: 'e' :: rest => some (JVal.bool true, rest)
    | 'f' :: 'a' :: 'l' :: 's' :: 'e' :: rest => some (JVal.bool false, rest)
    | '"' :: rest =>
      match parseStringBody rest [] with
      | some (s, rest2) => some (JVal.str s, rest2)
      | none => none
    | '[' :: rest =>
      match skipWs rest with
      | ']' :: rest2 => some (JVal.arr [], rest2)
      | cs2 =>
        match parseElems fuel cs2 with
        | some (es, rest2) => some (JVal.arr es, rest2)
        | none => none
    | '{' :: rest =>
      match skipWs rest with
      | '}' :: rest2 => some (JVal.obj [], rest2)
      | cs2 =>
        match parseMembers fuel cs2 with
        | some (ms, rest2) => some (JVal.obj ms, rest2)
        | none => none
    | cs1 =>
      match parseNumber cs1 with
      | some (lit, rest) => some (JVal.num lit, rest)
      | none => none

/-- Non-empty comma-separated array elements up to the closing bracket. -/
def parseElems : Nat → List Char → Option (List JVal × List Char)
  | 0, _ => none
  | fuel + 1, cs =>
    match parseVal fuel cs with
    | none => none
    | some (v, rest) =>
      match skipWs rest with
      | ',' :: rest2 =>
        match parseElems fuel rest2 with
        | some (vs, rest3) => some (v :: vs, rest3)
        | none => none
      | ']' :: rest2 => some ([v], rest2)
      | _ => none

/-- Non-empty comma-separated object members up to the closing brace. -/
def parseMembers : Nat → List Char → Option (List (String × JVal) × List Char)
  | 0, _ => none
  | fuel + 1, cs =>
    match skipWs cs with
    | '"' :: rest =>
      match parseStringBody rest [] with
      | none => none
      | some (k, rest2) =>
        match skipWs rest2 with
        | ':' :: rest3 =>
          match parseVal fuel rest3 with
          | none => none
          | some (v, rest4) =>
            match skipWs rest4 with
            | ',' :: rest5 =>
              match parseMembers fuel rest5 with
              | some (ms, rest6) => some ((k, v) :: ms, rest6)
              | none => none
            | '}' :: rest5 => some ([(k, v)], rest5)
            | _ => none
        | _ => none
    | _ => none

end

/-- Parse a whole payload: one JSON value, with only whitespace allowed
after it (`json.Unmarshal` rejects trailing data). -/
def parseJson (s : String) : Option JVal :=
  match parseVal (2 * s.data.length + 2) s.data with
  | some (v, rest) => if (skipWs rest).isEmpty then some v else none
  | none => none

/-- ASCII lower-casing of one character. -/
def asciiLower (c : Char) : Char :=
  if 'A' ≤ c && c ≤ 'Z' then Char.ofNat (c.toNat + 32) else c

/-- ASCII case-insensitive equality on character lists, modelling the
case-insensitive field-name match of encoding/json (the field names in play
are ASCII). -/
def ciEqList : List Char → List Char → Bool
  | [], [] => true
  | a :: as_, b :: bs => asciiLower a = asciiLower b && ciEqList as_ bs
  | _, _ => false

/-- ASCII case-insensitive equality on strings. -/
def ciEq (a b : String) : Bool :=
  ciEqList a.data b.data

/-- Decode one JSON object member into the matching `Resource` field; a
null leaves the field alone, a non-string non-null value is a type error,
unknown keys are ignored. -/
def setResourceField (r : Resource) (k : String) (v : JVal) : Except GoError Resource :=
  if ciEq k "gid" then
    match v with
    | JVal.str s => Except.ok { r with gid := s }
    | JVal.null => Except.ok r
    | _ => Except.error (GoError.jsonType "string")
  else if ciEq k "name" then
    match v with
    | JVal.str s => Except.ok { r with name := s }
    | JVal.null => Except.ok r
    | _ => Except.error (GoError.jsonType "string")
  else if ciEq k "resource_type" then
    match v with
    | JVal.str s => Except.ok { r with resourceType := s }
    | JVal.null => Except.ok r
    | _ => Except.error (GoError.jsonType "string")
  else Except.ok r

/-- Fold the members of a JSON object into a `Resource`, starting from the
zero value. -/
def decodeFields : List (String × JVal) → Resource → Except GoError Resource
  | [], r => Except.ok r
  | (k, v) :: rest, r =>
    match setResourceField r k v with
    | Except.error e => Except.error e
    | Except.ok r1 => decodeFields rest r1

/-- Decode one array element into a `Resource` (a JSON null yields the zero
value, as encoding/json does). -/
def decodeResource (v : JVal) : Except GoError Resource :=
  match v with
  | JVal.obj fields => decodeFields fields ⟨"", "", ""⟩
  | JVal.null => Except.ok ⟨"", "", ""⟩
  | _ => Except.error (GoError.jsonType "object")

/-- Decode the elements of the `data` array in order. -/
def decodeResources : List JVal → Except GoError (List Resource)
  | [] => Except.ok []
  | v :: rest =>
    match decodeResource v with
    | Except.error e => Except.error e
    | Except.ok r =>
      match decodeResources rest with
      | Except.error e => Except.error e
      | Except.ok rs => Except.ok (r :: rs)

/-- Walk the top-level object members; every member whose key matches
`data` case-insensitively re-decodes the slice (the last one wins, as in
the streaming Go decoder), a null resets it to nil, and a non-array
non-null value is a type error. -/
def decodeDataFields : List (String × JVal) → List Resource → Except GoError (List Resource)
  | [], acc => Except.ok acc
  | (k, v) :: rest, acc =>
    if ciEq k "data" then
      match v with
      | JVal.arr items =>
        match decodeResources items with
        | Except.error e => Except.error e
        | Except.ok rs => decodeDataFields rest rs
      | JVal.null => decodeDataFields rest []
      | _ => Except.error (GoError.jsonType "array")
    else decodeDataFields rest acc

/-- Unmarshal a decoded document into the anonymous
`struct { Data []Resource }` of `resources`. -/
def resourcesJVal (v : JVal) : Except GoError (List Resource) :=
  match v with
  | JVal.obj fields => decodeDataFields fields []
  | JVal.null => Except.ok []
  | _ => Except.error (GoError.jsonType "object")

/-- `resources` (src/cmd/app/export.go lines 148-158, identical in
src/unnamed/part_004): unmarshal the payload and wrap any failure in
`fmt.Errorf("unmarshal data: %w", err)`; on success return the `Data`
slice (nil becomes the empty list). -/
def resourcesFn (d : String) : Except GoError (List Resource) :=
  match parseJson d with
  | none => Except.error (GoError.wrap "unmarshal data" GoError.jsonSyntax)
  | some v =>
    match resourcesJVal v with
    | Except.error e => Except.error (GoError.wrap "unmarshal data" e)
    | Except.ok rs => Except.ok rs

/-- The document value that `jsonEncodeResource` spells out. -/
def resourceJVal (r : Resource) : JVal :=
  JVal.obj [("gid", JVal.str r.gid), ("name", JVal.str r.name),
    ("resource_type", JVal.str r.resourceType)]

/-- Comma-separated encodings of the listed resources. -/
def encodeItems : List Resource → List Char
  | [] => []
  | [r] => jsonEncodeResource r
  | r :: rest => jsonEncodeResource r ++ ',' :: encodeItems rest

/-- A well-formed payload `{"data": [...]}` carrying the given resources;
this is the spec-side generator of valid inputs with N entries. -/
def jsonEncodeData (rs : List Resource) : String :=
  String.mk ('{' :: (jsonEncodeString "data" ++ ':' :: '[' ::
    (encodeItems rs ++ ']' :: ['}'])))

/- ### URL model (net/url.Parse as consumed by validEndpoint) -/

/-- `unicode.IsSpace`, as used by `strings.TrimSpace`. -/
def isSpaceGo (c : Char) : Bool :=
  c = ' ' || c = '\t' || c = '\n' || c.toNat = 11 || c.toNat = 12 || c = '\r' ||
  c.toNat = 0x85 || c.toNat = 0xA0 || c.toNat = 0x1680 ||
  (0x2000 ≤ c.toNat && c.toNat ≤ 0x200A) || c.toNat = 0x2028 || c.toNat = 0x2029 ||
  c.toNat = 0x202F || c.toNat = 0x205F || c.toNat = 0x3000

/-- `strings.TrimSpace`. -/
def goTrimSpace (s : String) : String :=
  String.mk (((s.data.dropWhile isSpaceGo).reverse.dropWhile isSpaceGo).reverse)

/-- `strings.Contains`. -/
def goContains (s sub : String) : Bool :=
  s.data.tails.any (fun t => sub.data.isPrefixOf t)

/-- ASCII control characters rejected anywhere in a URL by net/url. -/
def isCtlChar (c : Char) : Bool :=
  c.toNat < 32 || c.toNat = 127

/-- Split at the first occurrence of a separator; the second component is
`none` when the separator does not occur. -/
def splitOnFirst (sep : Char) : List Char → List Char × Option (List Char)
  | [] => ([], none)
  | c :: rest =>
    if c = sep then ([], some rest)
    else
      let (a, b) := splitOnFirst sep rest
      (c :: a, b)

/-- Split at the last occurrence of a separator. -/
def lastSplit (sep : Char) (cs : List Char) : Option (List Char × List Char) :=
  match splitOnFirst sep cs.reverse with
  | (_, none) => none
  | (afterRev, some beforeRev) => some (beforeRev.reverse, afterRev.reverse)

/-- Authority runs to the first `/`; the path keeps the slash. -/
def spanUntilSlash : List Char → List Char × List Char
  | [] => ([], [])
  | c :: rest =>
    if c = '/' then ([], c :: rest)
    else
      let (a, b) := spanUntilSlash rest
      (c :: a, b)

/-- Every `%` begins a two-hex-digit escape (the validity check `unescape`
performs on paths, fragments and userinfo). -/
def validEscapes : List Char → Bool
  | [] => true
  | '%' :: a :: b :: rest =>
    (hexVal a).isSome && (hexVal b).isSome && validEscapes rest
  | '%' :: _ => false
  | _ :: rest => validEscapes rest

/-- `getScheme`: `Except.error` is the "missing protocol scheme" parse
error (colon first), `Except.ok none` means no scheme (the whole input is
the rest), `Except.ok (some (scheme, rest))` a recognised scheme. -/
def getSchemeAux : List Char → List Char → Except Unit (Option (List Char × List Char))
  | [], _ => Except.ok none
  | c :: rest, acc =>
    if ('a' ≤ c && c ≤ 'z') || ('A' ≤ c && c ≤ 'Z') then getSchemeAux rest (c :: acc)
    else if ('0' ≤ c && c ≤ '9') || c = '+' || c = '-' || c = '.' then
      if acc.isEmpty then Except.ok none else getSchemeAux rest (c :: acc)
    else if c = ':' then
      if acc.isEmpty then Except.error () else Except.ok (some (acc.reverse, rest))
    else Except.ok none

/-- Characters `net/url` accepts unescaped in a host (`shouldEscape` with
the host mode: unreserved, sub-delims, `:[]<>"`, and any non-ASCII). -/
def hostCharOk (c : Char) : Bool :=
  ('a' ≤ c && c ≤ 'z') || ('A' ≤ c && c ≤ 'Z') || ('0' ≤ c && c ≤ '9') ||
  c = '-' || c = '.' || c = '_' || c = '~' || c = '!' || c = '$' || c = '&' ||
  c = '\'' || c = '(' || c = ')' || c = '*' || c = '+' || c = ',' || c = ';' ||
  c = '=' || c = ':' || c = '[' || c = ']' || c = '<' || c = '>' || c = '"' ||
  128 ≤ c.toNat

/-- Host characters and `%`-escapes are valid (escapes of ASCII bytes other
than `%25` are rejected in hosts). -/
def hostCharsOk : List Char → Bool
  | [] => true
  | '%' :: a :: b :: rest =>
    (match hexVal a, hexVal b with
     | some va, some vb => (128 ≤ 16 * va + vb || (va = 2 && vb = 5)) && hostCharsOk rest
     | _, _ => false)
  | '%' :: _ => false
  | c :: rest => hostCharOk c && hostCharsOk rest

/-- `validOptionalPort`: empty, or a colon followed by digits. -/
def validOptionalPort : List Char → Bool
  | [] => true
  | ':' :: rest => rest.all (fun c => '0' ≤ c && c ≤ '9')
  | _ => false

/-- `parseHost`: a bracketed form needs a closing bracket and a valid
optional port after it; a plain form checks the part after the last colon
as a port; all characters go through the host validity rules. -/
def parseHostOk (host : List Char) : Bool :=
  match host with
  | '[' :: _ =>
    (match lastSplit ']' host with
     | none => false
     | some (_, afterBracket) => validOptionalPort afterBracket && hostCharsOk host)
  | _ =>
    (match lastSplit ':' host with
     | none => true
     | some (_, port) => validOptionalPort (':' :: port)) && hostCharsOk host

/-- Characters `validUserinfo` accepts. -/
def userinfoCharOk (c : Char) : Bool :=
  ('a' ≤ c && c ≤ 'z') || ('A' ≤ c && c ≤ 'Z') || ('0' ≤ c && c ≤ '9') ||
  c = '-' || c = '.' || c = '_' || c = ':' || c = '~' || c = '!' || c = '$' ||
  c = '&' || c = '\'' || c = '(' || c = ')' || c = '*' || c = '+' || c = ',' ||
  c = ';' || c = '=' || c = '%' || c = '@'

/-- Userinfo is allowed-characters only with valid `%`-escapes. -/
def validUserinfo (cs : List Char) : Bool :=
  cs.all userinfoCharOk && validEscapes cs

/-- The fields of a parsed URL that `validEndpoint` inspects.  Components
are kept in their raw (still escaped) spelling; the decoded non-ASCII
bytes a `%`-escape would produce cannot affect the emptiness and
substring checks made on them. -/
structure GoURL where
  scheme : String
  user : Option String
  host : String
  path : String
  rawQuery : String
  fragment : String
  deriving Repr, DecidableEq

/-- `parseAuthority`: userinfo before the last `@` (present even when
empty), host after it. -/
def parseAuthority (authority : List Char) : Option (Option String × String) :=
  match lastSplit '@' authority with
  | none => if parseHostOk authority then some (none, String.mk authority) else none
  | some (userinfo, host) =>
    if validUserinfo userinfo && parseHostOk host then
      some (some (String.mk userinfo), String.mk host)
    else none

/-- `url.Parse` for the shapes `validEndpoint` distinguishes: control
characters anywhere, the fragment split, scheme extraction (lower-cased),
the query split, the `//authority` form with userinfo/host validation, and
escape validation of path and fragment.  A scheme-relative or opaque rest
leaves the host empty. -/
def parseURL (rawURL : String) : Option GoURL :=
  if rawURL.data.any isCtlChar then none
  else
    let (beforeFrag, fragPart) := splitOnFirst '#' rawURL.data
    let fragOk : Option String := match fragPart with
      | none => some ""
      | some f => if validEscapes f then some (String.mk f) else none
    match fragOk with
    | none => none
    | some fragment =>
      match getSchemeAux beforeFrag [] with
      | Except.error _ => none
      | Except.ok schemeRes =>
        let scheme := match schemeRes with
          | some (sch, _) => String.mk (sch.map asciiLower)
          | none => ""
        let rest0 := match schemeRes with
          | some (_, r) => r
          | none => beforeFrag
        let (rest1, queryPart) := splitOnFirst '?' rest0
        let rawQuery := match queryPart with
          | none => ""
          | some q => String.mk q
        match rest1 with
        | '/' :: '/' :: rest2 =>
          let (authority, path) := spanUntilSlash rest2
          (match parseAuthority authority with
           | none => none
           | some (user, host) =>
             if validEscapes path then
               some { scheme := scheme, user := user, host := host,
                      path := String.mk path, rawQuery := rawQuery,
                      fragment := fragment }
             else none)
        | _ =>
          if validEscapes rest1 then
            some { scheme := scheme, user := none, host := "",
                   path := String.mk rest1, rawQuery := rawQuery,
                   fragment := fragment }
          else none

/-- `validEndpoint` (src/internal/client.go lines 84-124): reject blank
input, parse failures, missing scheme or host, non-HTTP(S) schemes,
fragments, userinfo, hosts whose lower-cased text CONTAINS `localhost`,
`127.0.0.1` or `::1` (`strings.Contains`), and inputs longer than 2048
bytes. -/
def validEndpoint (rawURL : String) : Bool :=
  if goTrimSpace rawURL = "" then false
  else
    match parseURL rawURL with
    | none => false
    | some u =>
      if u.scheme = "" ∨ u.host = "" then false
      else if String.mk (u.scheme.data.map asciiLower) ≠ "http" ∧
          String.mk (u.scheme.data.map asciiLower) ≠ "https" then false
      else if u.fragment ≠ "" then false
      else if u.user.isSome = true then false
      else if goContains (String.mk (u.host.data.map asciiLower)) "localhost" = true ∨
          goContains (String.mk (u.host.data.map asciiLower)) "127.0.0.1" = true ∨
          goContains (String.mk (u.host.data.map asciiLower)) "::1" = true then false
      else if 2048 < rawURL.utf8ByteSize then false
      else true

/-- The endpoint conditions in the words of the claim (`Modelled from the
spec:` the claim says a URL passes validation when it is an absolute
HTTP/HTTPS URL without fragment or userinfo whose host IS not one of
`localhost`, `127.0.0.1`, `::1`, is at most 2048 characters and not
blank); used to compare the claim against the code, whose host test is a
substring test. -/
def specValidEndpoint (rawURL : String) : Bool :=
  goTrimSpace rawURL ≠ "" &&
  (match parseURL rawURL with
   | none => false
   | some u =>
     u.scheme ≠ "" && u.host ≠ "" &&
     (String.mk (u.scheme.data.map asciiLower) = "http" ||
       String.mk (u.scheme.data.map asciiLower) = "https") &&
     u.fragment = "" && u.user = none &&
     String.mk (u.host.data.map asciiLower) ≠ "localhost" &&
     String.mk (u.host.data.map asciiLower) ≠ "127.0.0.1" &&
     String.mk (u.host.data.map asciiLower) ≠ "::1" &&
     rawURL.utf8ByteSize ≤ 2048)

/- ### Fetch client Request and the export pipelines -/

/-- An HTTP response as the pipeline consumes it: status code, the
`Retry-After` header ("" when absent), body. -/
structure Resp where
  status : Nat
  retryAfter : String
  body : String
  deriving Repr, DecidableEq

/-- `Request` (src/internal/client.go lines 46-81), with its effects made
explicit: the result, the number of rate-limiter waits, and the number of
network calls.  An invalid endpoint is rejected before any wait or call; a
cancelled context is observed next; otherwise the limiter admits the call
(the model treats the wait as succeeding when the context is live) and the
transport produces the next response, `none` standing for a transport
failure. -/
def Request (_c : Client) (ctxCancelled : Bool) (url : String)
    (transport : Option Resp) : (Except GoError Resp) × Nat × Nat :=
  if !validEndpoint url then (Except.error GoError.invalidEndpoint, 0, 0)
  else if ctxCancelled then (Except.error GoError.canceled, 0, 0)
  else
    match transport with
    | none => (Except.error (GoError.wrap "do request" GoError.transport), 1, 1)
    | some resp => (Except.ok resp, 1, 1)

/-- `fetchData` (src/cmd/app/export.go lines 66-119): loop requesting the
endpoint; a 429 response with a non-empty Retry-After header waits out the
backoff (cancellable) and retries on the next response; any other response
body is returned.  The response list supplies what the network would
answer; effects are (waits, calls) accumulated. -/
def fetchData (ctx : Bool) (client : Client) (endpoint : String) :
    List Resp → (Except GoError String) × Nat × Nat
  | [] =>
    if ctx then (Except.error GoError.canceled, 0, 0)
    else
      (match Request client ctx endpoint none with
       | (Except.error e, w, n) => (Except.error (GoError.wrap "make request" e), w, n)
       | (Except.ok resp, w, n) => (Except.ok resp.body, w, n))
  | resp :: rest =>
    if ctx then (Except.error GoError.canceled, 0, 0)
    else
      match Request client ctx endpoint (some resp) with
      | (Except.error e, w, n) => (Except.error (GoError.wrap "make request" e), w, n)
      | (Except.ok r, w, n) =>
        if r.status = 429 ∧ r.retryAfter ≠ "" then
          if ctx then (Except.error GoError.canceled, w, n)
          else
            let (res, w2, n2) := fetchData ctx client endpoint rest
            (res, w + w2, n + n2)
        else (Except.ok r.body, w, n)

/-- `resourceDir` of the revision in src/cmd/app/export.go (lines
123-144): stat `data/{resource}`; when absent, `MkdirAll` it, and then —
a slip in this revision — fall through to `dir.IsDir()` on the nil
`FileInfo`, a nil dereference modelled as the `nilDeref` error. -/
def resourceDirMain (cwd : String) (fs : Fs) (resource : String) :
    Except GoError Unit × Fs :=
  let p := resolvePath cwd ("data/" ++ resource)
  match fsGet fs p with
  | none =>
    (match mkdirAll fs p permissions with
     | Except.error e => (Except.error (GoError.wrap "make dir" e), fs)
     | Except.ok fs1 => (Except.error GoError.nilDeref, fs1))
  | some (FNode.dir _) => (Except.ok (), fs)
  | some (FNode.file _ _) => (Except.error (GoError.notDirectory (p.headD "")), fs)

/-- `storeResource` of the revision in src/cmd/app/export.go (lines
162-181): build `data/{resource}s/{resource}_{name}_{ts}.json`, create the
file (0666 before umask) and write the JSON line; every failure is only
logged, so the function returns nothing and a failed create leaves the
file system unchanged. -/
def storeResourceMain (cwd : String) (rc : Resource) (resource ts : String)
    (fs : Fs) : Fs :=
  let filename := "data/" ++ resource ++ "s/" ++ resource ++ "_" ++ rc.name ++
    "_" ++ ts ++ ".json"
  let p := resolvePath cwd filename
  match p with
  | [] => fs
  | _ :: parent =>
    match fsGet fs p with
    | some (FNode.dir _) => fs
    | some (FNode.file perm _) => fsSet fs p (FNode.file perm (encodeResourceLine rc))
    | none =>
      match fsGet fs parent with
      | some (FNode.dir _) => fsSet fs p (FNode.file 0o666 (encodeResourceLine rc))
      | _ => fs

/-- The per-resource loop of `export` in src/cmd/app/export.go: check the
context before each store, otherwise store (ignoring store outcomes). -/
def storeLoopMain (ctx : Bool) (cwd resource : String) (ts : Nat → String) :
    List Resource → Nat → Fs → (Except GoError Unit) × Fs
  | [], _, fs => (Except.ok (), fs)
  | rc :: rest, i, fs =>
    if ctx then (Except.error GoError.canceled, fs)
    else storeLoopMain ctx cwd resource ts rest (i + 1)
      (storeResourceMain cwd rc resource (ts i) fs)

/-- `export` (src/cmd/app/export.go lines 27-61): cancellation first, then
fetch, decode, directory ensure, and the store loop.  Returns the result,
the final file system, and the (waits, calls) effect counters. -/
def exportMain (ctx : Bool) (client : Client) (entrypoint resource : String)
    (responses : List Resp) (cwd : String) (ts : Nat → String) (fs : Fs) :
    (Except GoError Unit) × Fs × Nat × Nat :=
  if ctx then (Except.error GoError.canceled, fs, 0, 0)
  else
    let endpoint := entrypoint ++ "/" ++ resource ++ "s"
    match fetchData ctx client endpoint responses with
    | (Except.error e, w, n) =>
      ((if ctx then Except.error GoError.canceled
        else Except.error (GoError.wrap "fetch data" e)), fs, w, n)
    | (Except.ok data, w, n) =>
      match resourcesFn data with
      | Except.error e => (Except.error (GoError.wrap "retrieve resources" e), fs, w, n)
      | Except.ok rs =>
        match resourceDirMain cwd fs resource with
        | (Except.error e, fs1) =>
          (Except.error (GoError.wrap "resource directory" e), fs1, w, n)
        | (Except.ok _, fs1) =>
          let (res, fs2) := storeLoopMain ctx cwd resource ts rs 0 fs1
          (res, fs2, w, n)

/-- Filename built by `export` in src/unnamed/part_004 (line 51):
`{rcDir}/{resource}_{name}_{timestamp}.json`. -/
def filename4 (rcDir resource name ts : String) : String :=
  rcDir ++ "/" ++ resource ++ "_" ++ name ++ "_" ++ ts ++ ".json"

/-- The per-resource loop of `export` in src/unnamed/part_004 (lines
46-56): check the context before each store; a store error aborts the loop
wrapped as "store resource".  The third component counts store attempts. -/
def storeLoop4 (ctx : Bool) (cwd dataDir rcDir resource : String) (ts : Nat → String) :
    List Resource → Nat → Fs → (Except GoError Unit) × Fs × Nat
  | [], _, fs => (Except.ok (), fs, 0)
  | rc :: rest, i, fs =>
    if ctx then (Except.error GoError.canceled, fs, 0)
    else
      match storeResource4 cwd dataDir rc (filename4 rcDir resource rc.name (ts i)) fs with
      | (Except.error e, fs1) => (Except.error (GoError.wrap "store resource" e), fs1, 1)
      | (Except.ok _, fs1) =>
        let (r, fs2, k) := storeLoop4 ctx cwd dataDir rcDir resource ts rest (i + 1) fs1
        (r, fs2, k + 1)

/-- `export` (src/unnamed/part_004 lines 31-61): cancellation, decode the
given data, ensure `{dir}/{resource}`, then the store loop. -/
def export4 (ctx : Bool) (cwd dataDir resource : String) (data dir : String)
    (ts : Nat → String) (fs : Fs) : (Except GoError Unit) × Fs × Nat :=
  if ctx then (Except.error GoError.canceled, fs, 0)
  else
    match resourcesFn data with
    | Except.error e => (Except.error (GoError.wrap "retrieve resources" e), fs, 0)
    | Except.ok rs =>
      let rcDir := dir ++ "/" ++ resource
      match resourceDir4 cwd fs rcDir with
      | (Except.error e, fs1) => (Except.error (GoError.wrap "resource directory" e), fs1, 0)
      | (Except.ok _, fs1) => storeLoop4 ctx cwd dataDir rcDir resource ts rs 0 fs1


/- ### Retry-After model (src/unnamed/part_002 lines 140-157)

`retryAfter` tries `time.ParseDuration`, then `strconv.Atoi`, then
`http.ParseTime`, and falls back to `defaultRetryAfter` (5) seconds when
none applies or the parsed date is not in the future.  The three
standard-library functions are modelled below from their Go sources.
Durations are integer nanoseconds; instants are integer seconds (dates)
or nanoseconds (the current time) since the Unix epoch. -/

/-- ASCII digit. -/
def isDigitChar (c : Char) : Bool :=
  '0' ≤ c && c ≤ '9'

/-- Value of a digit string, most significant digit first. -/
def digitsVal (cs : List Char) : Nat :=
  cs.foldl (fun a c => a * 10 + (c.toNat - 48)) 0

/-- Strip one leading sign, as both `time.ParseDuration` and
`strconv.Atoi` do; the boolean records a leading `-`. -/
def stripSign : List Char → Bool × List Char
  | [] => (false, [])
  | c :: r =>
    if c = '-' then (true, r)
    else if c = '+' then (false, r)
    else (false, c :: r)

/-- `time.leadingInt`: consume leading digits into a `uint64` with the Go
source's overflow checks (an overflow is an error). -/
def leadingInt : Nat → List Char → Option (Nat × List Char)
  | x, [] => some (x, [])
  | x, c :: rest =>
    if isDigitChar c then
      if 2 ^ 63 / 10 < x then none
      else if 2 ^ 63 < x * 10 + (c.toNat - 48) then none
      else leadingInt (x * 10 + (c.toNat - 48)) rest
    else some (x, c :: rest)

/-- `time.leadingFraction`: digits after the decimal point.  The result is
the accumulated numerator, the count of digits that contributed (Go keeps
the float64 scale `10 ^ k`), and the remainder; digits beyond the overflow
bound are consumed but ignored. -/
def leadingFraction : List Char → Nat → Nat → Bool → Nat × Nat × List Char
  | [], x, k, _ => (x, k, [])
  | c :: rest, x, k, ovf =>
    if isDigitChar c then
      if ovf then leadingFraction rest x k true
      else if (2 ^ 63 - 1) / 10 < x then leadingFraction rest x k true
      else if 2 ^ 63 < x * 10 + (c.toNat - 48) then leadingFraction rest x k true
      else leadingFraction rest (x * 10 + (c.toNat - 48)) (k + 1) false
    else (x, k, c :: rest)

/-- Nanoseconds per duration unit (`time.unitMap`). -/
def unitNanos : String → Option Nat
  | "ns" => some 1
  | "us" => some 1000
  | "µs" => some 1000
  | "μs" => some 1000
  | "ms" => some 1000000
  | "s" => some 1000000000
  | "m" => some 60000000000
  | "h" => some 3600000000000
  | _ => none

/-- The unit name: everything up to the next digit or period. -/
def spanUnit : List Char → List Char × List Char
  | [] => ([], [])
  | c :: rest =>
    if c == '.' || isDigitChar c then ([], c :: rest)
    else
      match spanUnit rest with
      | (u, r) => (c :: u, r)

/-- The `for s != ""` loop of `time.ParseDuration`, fuel-indexed (each
iteration consumes at least the unit character, so `length + 1` fuel
suffices).  `d` is the accumulated `uint64` nanosecond total.  The
fractional contribution `uint64(float64(f) * (float64(unit)/scale))` is
modelled as the exact quotient `f * unit / 10 ^ k`; the `uint64`
additions are taken modulo `2 ^ 64` as in Go. -/
def parseDurChunks : Nat → List Char → Nat → Option Nat
  | 0, _, _ => none
  | _ + 1, [], d => some d
  | fuel + 1, c :: s, d =>
    if c == '.' || isDigitChar c then
      match leadingInt 0 (c :: s) with
      | none => none
      | some (v, rem) =>
        match (match rem with
               | '.' :: r2 =>
                 match leadingFraction r2 0 0 false with
                 | (f, k, rem2) =>
                   ((rem.length == (c :: s).length) && (rem2.length == r2.length),
                     f, k, rem2)
               | _ => ((rem.length == (c :: s).length), 0, 0, rem)) with
        | (bad, f, k, rem2) =>
          if bad then none
          else
            match spanUnit rem2 with
            | (u, rem3) =>
              if u.isEmpty then none
              else
                match unitNanos (String.mk u) with
                | none => none
                | some unit =>
                  if 2 ^ 63 / unit < v then none
                  else if 0 < f ∧
                      2 ^ 63 < (v * unit + f * unit / 10 ^ k) % 2 ^ 64 then none
                  else if 2 ^ 63 <
                      (d + (if 0 < f then (v * unit + f * unit / 10 ^ k) % 2 ^ 64
                            else v * unit)) % 2 ^ 64 then none
                  else parseDurChunks fuel rem3
                    ((d + (if 0 < f then (v * unit + f * unit / 10 ^ k) % 2 ^ 64
                           else v * unit)) % 2 ^ 64)
    else none

/-- `time.ParseDuration`, in integer nanoseconds.  A bare `0` (with
optional sign) is the special zero case; a negative result is the exact
negation (Go's `-Duration(d)` on `d = 2 ^ 63` wraps to `-2 ^ 63`, which
equals the negation); a positive total above `2 ^ 63 - 1` is an
overflow error. -/
def goParseDuration (s : String) : Option Int :=
  match stripSign s.data with
  | (neg, rest) =>
    if rest = ['0'] then some 0
    else if rest = [] then none
    else
      match parseDurChunks (rest.length + 1) rest 0 with
      | none => none
      | some d =>
        if neg then some (-(d : Int))
        else if 2 ^ 63 - 1 < (d : Int) then none
        else some (d : Int)

/-- `strconv.Atoi` on a 64-bit platform: optional sign, then a nonempty
run of ASCII digits; a value outside `int64` is a range error. -/
def goAtoi (s : String) : Option Int :=
  match stripSign s.data with
  | (neg, rest) =>
    if rest = [] then none
    else if rest.all isDigitChar then
      if neg then
        if digitsVal rest ≤ 2 ^ 63 then some (-(digitsVal rest : Int)) else none
      else
        if digitsVal rest ≤ 2 ^ 63 - 1 then some (digitsVal rest : Int) else none
    else none

/-- `time.shortDayNames`. -/
def shortDayNames : List String :=
  ["Sun", "Mon", "Tue", "Wed", "Thu", "Fri", "Sat"]

/-- `time.longDayNames`. -/
def longDayNames : List String :=
  ["Sunday", "Monday", "Tuesday", "Wednesday", "Thursday", "Friday", "Saturday"]

/-- `time.shortMonthNames`. -/
def shortMonthNames : List String :=
  ["Jan", "Feb", "Mar", "Apr", "May", "Jun",
    "Jul", "Aug", "Sep", "Oct", "Nov", "Dec"]

/-- ASCII-case-insensitive layout-name match (`time.match`). -/
def ciNamePrefix : List Char → List Char → Option (List Char)
  | [], s => some s
  | _ :: _, [] => none
  | p :: ps, c :: cs =>
    if asciiLower p = asciiLower c then ciNamePrefix ps cs else none

/-- `time.lookup`: first table entry that is a (case-insensitive) prefix
of the input, with its index. -/
def lookupName : List String → Nat → List Char → Option (Nat × List Char)
  | [], _, _ => none
  | n :: ns, i, s =>
    match ciNamePrefix n.data s with
    | some rest => some (i, rest)
    | none => lookupName ns (i + 1) s

/-- `time.getnum` with `fixed = true` on a two-digit layout field. -/
def getnum2 : List Char → Option (Nat × List Char)
  | c1 :: c2 :: rest =>
    if isDigitChar c1 && isDigitChar c2 then
      some ((c1.toNat - 48) * 10 + (c2.toNat - 48), rest)
    else none
  | _ => none

/-- `time.getnum` with `fixed = false`: one or two digits. -/
def getnum12 : List Char → Option (Nat × List Char)
  | [] => none
  | c1 :: rest =>
    if isDigitChar c1 then
      match rest with
      | c2 :: rest2 =>
        if isDigitChar c2 then
          some ((c1.toNat - 48) * 10 + (c2.toNat - 48), rest2)
        else some (c1.toNat - 48, rest)
      | [] => some (c1.toNat - 48, [])
    else none

/-- The four-digit year field (`2006`): the first character must be a
digit and the four characters are read with `time.atoi`. -/
def getnum4 : List Char → Option (Nat × List Char)
  | c1 :: c2 :: c3 :: c4 :: rest =>
    if isDigitChar c1 && isDigitChar c2 && isDigitChar c3 && isDigitChar c4 then
      some (digitsVal [c1, c2, c3, c4], rest)
    else none
  | _ => none

/-- The 1969 pivot for two-digit years. -/
def yearAdj (y : Int) : Int :=
  if 69 ≤ y then y + 1900 else y + 2000

/-- The two-digit year field (`06`): `time.atoi` of exactly two
characters (so a sign followed by one digit is also accepted), then the
pivot. -/
def getYear2 : List Char → Option (Int × List Char)
  | c1 :: c2 :: rest =>
    if isDigitChar c1 && isDigitChar c2 then
      some (yearAdj (((c1.toNat - 48) * 10 + (c2.toNat - 48) : Nat) : Int), rest)
    else if (c1 == '-' || c1 == '+') && isDigitChar c2 then
      some (yearAdj (if c1 == '-' then -((c2.toNat : Int) - 48)
                     else (c2.toNat : Int) - 48), rest)
    else none
  | _ => none

/-- Literal layout text (matched byte for byte). -/
def litPrefix : List Char → List Char → Option (List Char)
  | [], s => some s
  | _ :: _, [] => none
  | p :: ps, c :: cs => if p = c then litPrefix ps cs else none

/-- The fields `time.Parse` extracts from the three HTTP layouts. -/
structure HDate where
  year : Int
  month : Nat
  day : Nat
  hour : Nat
  minute : Nat
  second : Nat
  deriving Repr, DecidableEq

/-- `time.Parse` with layout `Mon, 02 Jan 2006 15:04:05 GMT`
(`http.TimeFormat`); the weekday name is read but not cross-checked. -/
def parseRFC1123 (cs : List Char) : Option HDate := do
  let (_, s1) ← lookupName shortDayNames 0 cs
  let s2 ← litPrefix [',', ' '] s1
  let (day, s3) ← getnum2 s2
  let s4 ← litPrefix [' '] s3
  let (mi, s5) ← lookupName shortMonthNames 0 s4
  let s6 ← litPrefix [' '] s5
  let (year, s7) ← getnum4 s6
  let s8 ← litPrefix [' '] s7
  let (hour, s9) ← getnum12 s8
  let s10 ← litPrefix [':'] s9
  let (minute, s11) ← getnum2 s10
  let s12 ← litPrefix [':'] s11
  let (second, s13) ← getnum2 s12
  let s14 ← litPrefix [' ', 'G', 'M', 'T'] s13
  if s14 = [] then
    some ⟨(year : Int), mi + 1, day, hour, minute, second⟩
  else none

/-- `time.Parse` with layout `Monday, 02-Jan-06 15:04:05 GMT`
(`time.RFC850`). -/
def parseRFC850 (cs : List Char) : Option HDate := do
  let (_, s1) ← lookupName longDayNames 0 cs
  let s2 ← litPrefix [',', ' '] s1
  let (day, s3) ← getnum2 s2
  let s4 ← litPrefix ['-'] s3
  let (mi, s5) ← lookupName shortMonthNames 0 s4
  let s6 ← litPrefix ['-'] s5
  let (year, s7) ← getYear2 s6
  let s8 ← litPrefix [' '] s7
  let (hour, s9) ← getnum12 s8
  let s10 ← litPrefix [':'] s9
  let (minute, s11) ← getnum2 s10
  let s12 ← litPrefix [':'] s11
  let (second, s13) ← getnum2 s12
  let s14 ← litPrefix [' ', 'G', 'M', 'T'] s13
  if s14 = [] then
    some ⟨year, mi + 1, day, hour, minute, second⟩
  else none

/-- `time.Parse` with layout `Mon Jan _2 15:04:05 2006` (`time.ANSIC`);
`_2` skips one optional leading space before a 1-2 digit day. -/
def parseANSIC (cs : List Char) : Option HDate := do
  let (_, s1) ← lookupName shortDayNames 0 cs
  let s2 ← litPrefix [' '] s1
  let (mi, s3) ← lookupName shortMonthNames 0 s2
  let s4 ← litPrefix [' '] s3
  let (day, s5) ← getnum12 (match s4 with | ' ' :: r => r | _ => s4)
  let s6 ← litPrefix [' '] s5
  let (hour, s7) ← getnum12 s6
  let s8 ← litPrefix [':'] s7
  let (minute, s9) ← getnum2 s8
  let s10 ← litPrefix [':'] s9
  let (second, s11) ← getnum2 s10
  let s12 ← litPrefix [' '] s11
  let (year, s13) ← getnum4 s12
  if s13 = [] then
    some ⟨(year : Int), mi + 1, day, hour, minute, second⟩
  else none

/-- Gregorian leap year (`time.isLeap`). -/
def isLeapYear (y : Int) : Bool :=
  y % 4 = 0 && (y % 100 ≠ 0 || y % 400 = 0)

/-- `time.daysIn`. -/
def daysInMonth (m : Nat) (y : Int) : Nat :=
  if m = 2 then (if isLeapYear y then 29 else 28)
  else if m = 4 ∨ m = 6 ∨ m = 9 ∨ m = 11 then 30
  else 31

/-- The range checks `time.Parse` applies to the extracted fields (the
month always comes from a name table). -/
def validHDate (d : HDate) : Bool :=
  decide (1 ≤ d.day ∧ d.day ≤ daysInMonth d.month d.year ∧
    d.hour < 24 ∧ d.minute < 60 ∧ d.second < 60)

/-- Days from the Unix epoch of a civil Gregorian date (the standard
era-based conversion used to realise `time.Date`). -/
def daysFromCivil (y : Int) (m d : Nat) : Int :=
  let y2 : Int := if m ≤ 2 then y - 1 else y
  let era : Int := Int.fdiv y2 400
  let yoe : Int := y2 - era * 400
  let mp : Nat := if 2 < m then m - 3 else m + 9
  let doy : Int := (((153 * mp + 2) / 5 + d - 1 : Nat) : Int)
  let doe : Int := yoe * 365 + Int.fdiv yoe 4 - Int.fdiv yoe 100 + doy
  era * 146097 + doe - 719468

/-- Seconds since the Unix epoch of a parsed date (all three layouts are
GMT). -/
def epochSecs (d : HDate) : Int :=
  daysFromCivil d.year d.month d.day * 86400 +
    (d.hour : Int) * 3600 + (d.minute : Int) * 60 + (d.second : Int)

/-- One `time.Parse` attempt: parse, apply the range checks, convert. -/
def tryLayout (p : List Char → Option HDate) (cs : List Char) : Option Int :=
  match p cs with
  | some d => if validHDate d then some (epochSecs d) else none
  | none => none

/-- `http.ParseTime`: the `http.TimeFormat`, RFC 850 and ANSI C layouts,
tried in order. -/
def httpParseTime (s : String) : Option Int :=
  match tryLayout parseRFC1123 s.data with
  | some t => some t
  | none =>
    match tryLayout parseRFC850 s.data with
    | some t => some t
    | none => tryLayout parseANSIC s.data

/-- Signed 64-bit wrap-around. -/
def wrap64 (x : Int) : Int :=
  (x + 2 ^ 63) % 2 ^ 64 - 2 ^ 63

/-- `time.Duration(n) * time.Second`: an `int64` multiplication. -/
def durMulSec (n : Int) : Int :=
  wrap64 (n * 1000000000)

/-- `time.Until(t)` for a current instant `now` in nanoseconds and a
target `t` in epoch seconds: `t.Sub(now)` saturates at the `int64`
bounds. -/
def timeUntil (now t : Int) : Int :=
  if 2 ^ 63 - 1 < t * 1000000000 - now then 2 ^ 63 - 1
  else if t * 1000000000 - now < -(2 ^ 63) then -(2 ^ 63)
  else t * 1000000000 - now

/-- `retryAfter` (src/unnamed/part_002 lines 140-157): a parseable
duration is returned as is; otherwise an `Atoi`-parseable count is
multiplied by `time.Second`; otherwise a parseable HTTP date strictly in
the future yields `time.Until` of it; everything else yields
`defaultRetryAfter` (5) seconds. -/
def retryAfterGo (now : Int) (s : String) : Int :=
  match goParseDuration s with
  | some d => d
  | none =>
    match goAtoi s with
    | some n => durMulSec n
    | none =>
      match httpParseTime s with
      | some t =>
        if 0 < timeUntil now t then timeUntil now t else 5 * 1000000000
      | none => 5 * 1000000000

/-- Spec-modelled from the claim's words: a plain non-negative integer
(a nonempty run of digits). -/
def plainNonNegInt (s : String) : Bool :=
  !s.data.isEmpty && s.data.all isDigitChar

/-- Spec-modelled: an optionally signed plain integer in decimal and its
value (the textual form `strconv.Atoi` accepts, before any range
consideration). -/
def signedDigits (s : String) : Option Int :=
  match stripSign s.data with
  | (neg, rest) =>
    if rest = [] then none
    else if rest.all isDigitChar then
      some (if neg then -(digitsVal rest : Int) else (digitsVal rest : Int))
    else none

/-- Whether the sign-stripped body is the literal `0`, the one all-digit
string `time.ParseDuration` accepts. -/
def zeroBody (s : String) : Bool :=
  (stripSign s.data).2 == ['0']


end AsanaExporter

namespace AsanaExporter

/-- C10: for every token string and every integer rate value (including 0 and
negative values), `NewClient` returns a non-nil client and a nil error; the
error branch is never taken. -/
theorem newClient_never_errors (t : String) (r : Int) :
    (NewClient t r).2 = none ∧ (NewClient t r).1.token = t ∧
      (NewClient t r).1.limiter.burst = r := by
  refine ⟨rfl, rfl, rfl⟩

/-- C2 counterexample: for rate 30 the constructed limiter refills at 0 tokens
per second, not at the claimed 30/60 = 0.5 tokens per second, because Go
evaluates `r/60` in integer arithmetic. -/
theorem newClient_rate30_refill_zero :
    (NewClient "token" 30).1.limiter.limit = 0 ∧
      (NewClient "token" 30).1.limiter.limit ≠ (30 : Rat) / 60 := by
  constructor
  · rfl
  · intro h
    have : (0 : Rat) = (30 : Rat) / 60 := by
      simpa [NewClient, rateNewLimiter] using h
    norm_num at this

/-- C2 amended: for every rate ≥ 1 the burst capacity equals the rate and the
refill rate is the integer quotient ⌊rate/60⌋ tokens per second (so it equals
rate/60 exactly only when 60 divides the rate). -/
theorem newClient_limiter_floor (t : String) (r : Int) (h : 1 ≤ r) :
    (NewClient t r).1.limiter.burst = r ∧
      60 * (NewClient t r).1.limiter.limit ≤ (r : Rat) ∧
      (r : Rat) < 60 * (NewClient t r).1.limiter.limit + 60 ∧
      ((60 : Int) ∣ r → (NewClient t r).1.limiter.limit = (r : Rat) / 60) := by
  obtain ⟨n, rfl⟩ : ∃ n : Nat, r = (n : Int) :=
    ⟨r.toNat, (Int.toNat_of_nonneg (le_trans (by norm_num) h)).symm⟩
  have hdiv : Int.tdiv (n : Int) 60 = ((n / 60 : Nat) : Int) := by
    exact_mod_cast (Int.ofNat_tdiv n 60).symm
  have hlimit : (NewClient t (n : Int)).1.limiter.limit = ((n / 60 : Nat) : Rat) := by
    show ((Int.tdiv (n : Int) 60 : Int) : Rat) = ((n / 60 : Nat) : Rat)
    rw [hdiv]
    norm_cast
  have h60 := Nat.div_add_mod n 60
  have hm : n % 60 < 60 := Nat.mod_lt _ (by norm_num)
  refine ⟨rfl, ?_, ?_, ?_⟩
  · rw [hlimit]
    have hle : ((n / 60 : Nat) : Rat) * 60 ≤ (n : Rat) := by
      exact_mod_cast (show (n / 60) * 60 ≤ n by omega)
    push_cast
    push_cast at hle
    linarith
  · rw [hlimit]
    have hlt : (n : Rat) < ((n / 60 : Nat) : Rat) * 60 + 60 := by
      exact_mod_cast (show n < (n / 60) * 60 + 60 by omega)
    push_cast
    push_cast at hlt
    linarith
  · intro hd
    have hdn : 60 ∣ n := by exact_mod_cast hd
    have hmul : (n / 60) * 60 = n := Nat.div_mul_cancel hdn
    rw [hlimit]
    have : ((n / 60 : Nat) : Rat) * 60 = (n : Rat) := by exact_mod_cast hmul
    push_cast
    push_cast at this
    field_simp
    try linarith

/-- Witness for C2 amended at rate 60. -/
theorem newClient_limiter_floor_witness :
    (NewClient "x" 60).1.limiter.burst = 60 ∧
      60 * (NewClient "x" 60).1.limiter.limit ≤ (60 : Rat) := by
  have h := newClient_limiter_floor "x" 60 (by norm_num)
  exact ⟨h.1, h.2.1⟩

/-- C9: `finish` returns nil on an empty error list (also when the run stopped
only because of cancellation), and on a non-empty list returns the composite
error carrying the count and the first error; the result does not depend on
the cancellation flag. -/
theorem finish_aggregates (c : Bool) (errs : List GoError) :
    (errs = [] → finish c errs = none) ∧
      (∀ e rest, errs = e :: rest →
        finish c errs = some (GoError.exportErrors (rest.length + 1) e)) ∧
      finish c errs = finish true errs := by
  refine ⟨?_, ?_, ?_⟩
  · rintro rfl
    rfl
  · rintro e rest rfl
    simp [finish]
  · cases errs <;> simp [finish]

theorem fsGet_fsSet_same (fs : Fs) (p : List String) (nd : FNode) (h : p ≠ []) :
    fsGet (fsSet fs p nd) p = some nd := by
  simp [fsGet, fsSet, fsFind, h]

theorem all_tails_self {P : List String → Bool} {l : List String}
    (h : l.tails.all P = true) : P l = true := by
  cases l <;> simp_all [List.tails]

theorem all_drop_one {α : Type} {P : α → Bool} {l : List α}
    (h : l.all P = true) : (l.drop 1).all P = true := by
  cases l <;> simp_all

/-- `MkdirAll` succeeds when nothing on the ancestor chain is a regular file
and the target itself is not a regular file; a missing target ends up as a
directory with the requested permissions, an existing directory leaves the
file system unchanged. -/
theorem mkdirAll_spec (p : List String) (fs : Fs)
    (h1 : ancestorsClear fs p = true) (h2 : isFileAt fs p = false) :
    ∃ fs1, mkdirAll fs p permissions = Except.ok fs1 ∧
      (fsGet fs p = none → fsGet fs1 p = some (FNode.dir permissions)) ∧
      (∀ m, fsGet fs p = some (FNode.dir m) → fs1 = fs) := by
  induction p with
  | nil =>
    refine ⟨fs, rfl, ?_, fun _ _ => rfl⟩
    intro hnone
    simp [fsGet] at hnone
  | cons c parent ih =>
    have htails : (parent.tails).all (fun t => !isFileAt fs t) = true := by
      simpa [ancestorsClear, List.tails_cons] using h1
    have hparentFile : isFileAt fs parent = false := by
      have := all_tails_self htails
      simpa using this
    have hparentClear : ancestorsClear fs parent = true := by
      simpa [ancestorsClear] using all_drop_one htails
    cases hget : fsGet fs (c :: parent) with
    | none =>
      obtain ⟨fs1, hok, _, _⟩ := ih hparentClear hparentFile
      refine ⟨fsSet fs1 (c :: parent) (FNode.dir permissions), ?_, ?_, ?_⟩
      · simp only [mkdirAll, hget, hok]
      · intro _
        exact fsGet_fsSet_same fs1 (c :: parent) (FNode.dir permissions) (by simp)
      · intro m hm
        cases hm
    | some nd =>
      cases nd with
      | dir m =>
        refine ⟨fs, ?_, ?_, fun _ _ => rfl⟩
        · simp only [mkdirAll, hget]
        · intro hnone
          cases hnone
      | file m content =>
        exfalso
        simp [isFileAt, hget] at h2

/-- C7: directory-ensure (`resourceDir`, src/unnamed/part_004) is
idempotent.  If the target is already a directory the call succeeds and
changes nothing (so a second call behaves identically); if the target is
absent and creatable (no regular file on the ancestor chain) the first call
creates it with 0o755 permissions and succeeds, and the second call on the
resulting state succeeds without further change; if the target is an
existing regular file the call fails with the "not directory" error and
changes nothing, so the second call fails with the same error kind. -/
theorem resourceDir_idempotent (cwd dst : String) (fs : Fs) :
    ((∃ m, fsGet fs (resolvePath cwd dst) = some (FNode.dir m)) →
        resourceDir4 cwd fs dst = (Except.ok (), fs)) ∧
      (fsGet fs (resolvePath cwd dst) = none →
        ancestorsClear fs (resolvePath cwd dst) = true →
        ∃ fs1, resourceDir4 cwd fs dst = (Except.ok (), fs1) ∧
          fsGet fs1 (resolvePath cwd dst) = some (FNode.dir permissions) ∧
          resourceDir4 cwd fs1 dst = (Except.ok (), fs1)) ∧
      (∀ m content,
        fsGet fs (resolvePath cwd dst) = some (FNode.file m content) →
        resourceDir4 cwd fs dst =
          (Except.error (GoError.notDirectory ((resolvePath cwd dst).headD "")), fs)) := by
  refine ⟨?_, ?_, ?_⟩
  · rintro ⟨m, hm⟩
    simp only [resourceDir4, hm]
  · intro hnone hclear
    have hfile : isFileAt fs (resolvePath cwd dst) = false := by
      simp [isFileAt, hnone]
    obtain ⟨fs1, hok, hcreated, _⟩ := mkdirAll_spec (resolvePath cwd dst) fs hclear hfile
    have hdir := hcreated hnone
    refine ⟨fs1, ?_, hdir, ?_⟩
    · simp only [resourceDir4, hnone, hok]
    · simp only [resourceDir4, hdir]
  · intro m content hm
    simp only [resourceDir4, hm]

/-- Witness for C7: creating `a` under the empty file system from working
directory `/w` succeeds twice, the second call leaving the state of the
first untouched. -/
theorem resourceDir_idempotent_witness :
    ∃ fs1, resourceDir4 "/w" ([] : Fs) "a" = (Except.ok (), fs1) ∧
      fsGet fs1 (resolvePath "/w" "a") = some (FNode.dir permissions) ∧
      resourceDir4 "/w" fs1 "a" = (Except.ok (), fs1) :=
  (resourceDir_idempotent "/w" "a" []).2.1 (by decide) (by decide)

/-- C1 failing input: with working directory `/home/user` and data root
`data` (so `/home/user/data`), the filename `data/../data-evil/pwn.json`
canonicalizes to `/home/user/data-evil/pwn.json`, which is NOT inside the
data root, yet `storeResource` accepts it — `strings.HasPrefix` sees
`/home/user/data` as a textual prefix — and creates the file outside the
root instead of failing with the path-traversal error. -/
theorem storeResource_prefix_escape :
    specInsideRoot (goAbs "/home/user" "data")
        (goAbs "/home/user" (goClean "data/../data-evil/pwn.json")) = false ∧
      (storeResource4 "/home/user" "data" ⟨"1", "pwn", "project"⟩
          "data/../data-evil/pwn.json"
          [(["home"], FNode.dir 0o755), (["user", "home"], FNode.dir 0o755),
            (["data", "user", "home"], FNode.dir 0o755),
            (["data-evil", "user", "home"], FNode.dir 0o755)]).1 = Except.ok () ∧
      fsGet (storeResource4 "/home/user" "data" ⟨"1", "pwn", "project"⟩
          "data/../data-evil/pwn.json"
          [(["home"], FNode.dir 0o755), (["user", "home"], FNode.dir 0o755),
            (["data", "user", "home"], FNode.dir 0o755),
            (["data-evil", "user", "home"], FNode.dir 0o755)]).2
          ["pwn.json", "data-evil", "user", "home"] =
        some (FNode.file 0o600 (encodeResourceLine ⟨"1", "pwn", "project"⟩)) := by
  refine ⟨by decide, rfl, by decide⟩

/-- Witness for C9: an empty list yields nil even under cancellation, a
two-element list yields the composite error with count 2 and the first
error wrapped. -/
theorem finish_aggregates_witness :
    finish true [] = none ∧
      finish false [GoError.transport, GoError.canceled] =
        some (GoError.exportErrors 2 GoError.transport) := by
  refine ⟨(finish_aggregates true []).1 rfl, ?_⟩
  have h := (finish_aggregates false [GoError.transport, GoError.canceled]).2.1
    GoError.transport [GoError.canceled] rfl
  simpa using h

end AsanaExporter

namespace AsanaExporter

theorem hexVal_hexDigitChar : ∀ k, k < 16 → hexVal (hexDigitChar k) = some k := by
  decide

theorem psb_plain (c : Char) (tail acc : List Char) (h1 : c ≠ '"') (h2 : c ≠ '\\')
    (h3 : ¬ c.toNat < 32) : psb (c :: tail) none acc = psb tail none (c :: acc) := by
  rw [psb.eq_def]
  split
  · simp_all
  · simp_all
  · simp_all
  · simp_all
  · simp_all

theorem psb_uescape (c : Char) (tail acc : List Char) (hlt : c.toNat < 55296) :
    psb (uEscape c ++ tail) none acc = psb tail none (c :: acc) := by
  have e1 := hexVal_hexDigitChar (c.toNat / 4096 % 16) (by omega)
  have e2 := hexVal_hexDigitChar (c.toNat / 256 % 16) (by omega)
  have e3 := hexVal_hexDigitChar (c.toNat / 16 % 16) (by omega)
  have e4 := hexVal_hexDigitChar (c.toNat % 16) (by omega)
  have hrec : c.toNat / 4096 % 16 * 4096 + c.toNat / 256 % 16 * 256 +
      c.toNat / 16 % 16 * 16 + c.toNat % 16 = c.toNat := by omega
  simp only [uEscape, List.cons_append, List.nil_append, psb, e1, e2, e3, e4, hrec]
  have hs1 : ¬(55296 ≤ c.toNat ∧ c.toNat ≤ 56319) := by omega
  have hs2 : ¬(56320 ≤ c.toNat ∧ c.toNat ≤ 57343) := by omega
  simp only [hs1, if_false, hs2, Char.ofNat_toNat]
  rfl

theorem psb_escape_char (c : Char) (tail acc : List Char) :
    psb (jsonEscapeChar c ++ tail) none acc = psb tail none (c :: acc) := by
  by_cases h1 : c = '"'
  · subst h1; rfl
  by_cases h2 : c = '\\'
  · subst h2; rfl
  by_cases h3 : c = '\n'
  · subst h3; rfl
  by_cases h4 : c = '\r'
  · subst h4; rfl
  by_cases h5 : c = '\t'
  · subst h5; rfl
  by_cases h6 : c = '<' ∨ c = '>' ∨ c = '&'
  · have hesc : jsonEscapeChar c = uEscape c := by
      rcases h6 with h | h | h <;> subst h <;> rfl
    rw [hesc, psb_uescape]
    rcases h6 with h | h | h <;> subst h <;> decide
  · have h6' : (c = '<' || c = '>' || c = '&') = false := by
      simp only [Bool.or_eq_false_iff, decide_eq_false_iff_not]
      exact ⟨⟨fun h => h6 (Or.inl h), fun h => h6 (Or.inr (Or.inl h))⟩,
        fun h => h6 (Or.inr (Or.inr h))⟩
    by_cases h7 : c.toNat < 32 ∨ c.toNat = 8232 ∨ c.toNat = 8233
    · have hesc : jsonEscapeChar c = uEscape c := by
        simp only [jsonEscapeChar, h1, h2, h3, h4, h5, if_false, h6', Bool.false_eq_true]
        have h7' : (c.toNat < 32 || c.toNat = 8232 || c.toNat = 8233) = true := by
          simp only [Bool.or_eq_true, decide_eq_true_eq]
          tauto
        simp [h7']
      rw [hesc, psb_uescape]
      rcases h7 with h | h | h <;> omega
    · have hesc : jsonEscapeChar c = [c] := by
        simp only [jsonEscapeChar, h1, h2, h3, h4, h5, if_false, h6', Bool.false_eq_true]
        have h7' : (c.toNat < 32 || c.toNat = 8232 || c.toNat = 8233) = false := by
          simp only [Bool.or_eq_false_iff, decide_eq_false_iff_not]
          tauto
        simp [h7']
      rw [hesc]
      exact psb_plain c tail acc h1 h2 (by tauto)

theorem psb_encoded (cs : List Char) : ∀ (rest acc : List Char),
    psb ((cs.map jsonEscapeChar).flatten ++ '"' :: rest) none acc =
      some (String.mk (acc.reverse ++ cs), rest) := by
  induction cs with
  | nil => intro rest acc; simp [psb]
  | cons c cs ih =>
    intro rest acc
    rw [List.map_cons, List.flatten_cons, List.append_assoc, psb_escape_char, ih]
    simp

theorem parseStringBody_encoded (s : String) (rest : List Char) :
    parseStringBody ((s.data.map jsonEscapeChar).flatten ++ '"' :: rest) [] =
      some (s, rest) := by
  rw [parseStringBody, psb_encoded]
  simp

end AsanaExporter

namespace AsanaExporter

theorem parseVal_eq (fuel : Nat) (cs : List Char) :
    parseVal (fuel + 1) cs =
      match skipWs cs with
      | 'n' :: 'u' :: 'l' :: 'l' :: rest => some (JVal.null, rest)
      | 't' :: 'r' :: 'u' :: 'e' :: rest => some (JVal.bool true, rest)
      | 'f' :: 'a' :: 'l' :: 's' :: 'e' :: rest => some (JVal.bool false, rest)
      | '"' :: rest =>
        (match parseStringBody rest [] with
         | some (s, rest2) => some (JVal.str s, rest2)
         | none => none)
      | '[' :: rest =>
        (match skipWs rest with
         | ']' :: rest2 => some (JVal.arr [], rest2)
         | cs2 =>
           match parseElems fuel cs2 with
           | some (es, rest2) => some (JVal.arr es, rest2)
           | none => none)
      | '{' :: rest =>
        (match skipWs rest with
         | '}' :: rest2 => some (JVal.obj [], rest2)
         | cs2 =>
           match parseMembers fuel cs2 with
           | some (ms, rest2) => some (JVal.obj ms, rest2)
           | none => none)
      | cs1 =>
        match parseNumber cs1 with
        | some (lit, rest) => some (JVal.num lit, rest)
        | none => none := rfl

theorem parseElems_eq (fuel : Nat) (cs : List Char) :
    parseElems (fuel + 1) cs =
      match parseVal fuel cs with
      | none => none
      | some (v, rest) =>
        match skipWs rest with
        | ',' :: rest2 =>
          (match parseElems fuel rest2 with
           | some (vs, rest3) => some (v :: vs, rest3)
           | none => none)
        | ']' :: rest2 => some ([v], rest2)
        | _ => none := rfl

theorem parseMembers_eq (fuel : Nat) (cs : List Char) :
    parseMembers (fuel + 1) cs =
      match skipWs cs with
      | '"' :: rest =>
        (match parseStringBody rest [] with
         | none => none
         | some (k, rest2) =>
           match skipWs rest2 with
           | ':' :: rest3 =>
             (match parseVal fuel rest3 with
              | none => none
              | some (v, rest4) =>
                match skipWs rest4 with
                | ',' :: rest5 =>
                  (match parseMembers fuel rest5 with
                   | some (ms, rest6) => some ((k, v) :: ms, rest6)
                   | none => none)
                | '}' :: rest5 => some ([(k, v)], rest5)
                | _ => none)
           | _ => none)
      | _ => none := rfl

theorem jsonEncodeString_eq (s : String) (rest : List Char) :
    jsonEncodeString s ++ rest =
      '"' :: ((s.data.map jsonEscapeChar).flatten ++ '"' :: rest) := by
  simp [jsonEncodeString]

theorem parseVal_str (fuel : Nat) (s : String) (rest : List Char) :
    parseVal (fuel + 1) (jsonEncodeString s ++ rest) = some (JVal.str s, rest) := by
  rw [jsonEncodeString_eq, parseVal_eq]
  have hskip : skipWs ('"' :: ((s.data.map jsonEscapeChar).flatten ++ '"' :: rest)) =
      '"' :: ((s.data.map jsonEscapeChar).flatten ++ '"' :: rest) := rfl
  rw [hskip]
  simp only [parseStringBody_encoded]

end AsanaExporter

namespace AsanaExporter

theorem parseMembers_last_str (fuel : Nat) (k v : String) (rest : List Char) :
    parseMembers (fuel + 2) (jsonEncodeString k ++ ':' :: (jsonEncodeString v ++ '}' :: rest)) =
      some ([(k, JVal.str v)], rest) := by
  rw [jsonEncodeString_eq]
  show parseMembers ((fuel + 1) + 1) _ = _
  rw [parseMembers_eq]
  have hskip : skipWs ('"' :: ((k.data.map jsonEscapeChar).flatten ++
      '"' :: (':' :: (jsonEncodeString v ++ '}' :: rest)))) =
      '"' :: ((k.data.map jsonEscapeChar).flatten ++
      '"' :: (':' :: (jsonEncodeString v ++ '}' :: rest))) := rfl
  rw [hskip]
  simp only [parseStringBody_encoded]
  have hskip2 : skipWs (':' :: (jsonEncodeString v ++ '}' :: rest)) =
      ':' :: (jsonEncodeString v ++ '}' :: rest) := rfl
  rw [hskip2]
  simp only [parseVal_str]
  rfl

theorem parseMembers_cons_str (fuel : Nat) (k v : String) (rest : List Char) :
    parseMembers (fuel + 2) (jsonEncodeString k ++ ':' :: (jsonEncodeString v ++ ',' :: rest)) =
      (match parseMembers (fuel + 1) rest with
       | some (ms, r2) => some ((k, JVal.str v) :: ms, r2)
       | none => none) := by
  rw [jsonEncodeString_eq]
  show parseMembers ((fuel + 1) + 1) _ = _
  rw [parseMembers_eq]
  have hskip : skipWs ('"' :: ((k.data.map jsonEscapeChar).flatten ++
      '"' :: (':' :: (jsonEncodeString v ++ ',' :: rest)))) =
      '"' :: ((k.data.map jsonEscapeChar).flatten ++
      '"' :: (':' :: (jsonEncodeString v ++ ',' :: rest))) := rfl
  rw [hskip]
  simp only [parseStringBody_encoded]
  have hskip2 : skipWs (':' :: (jsonEncodeString v ++ ',' :: rest)) =
      ':' :: (jsonEncodeString v ++ ',' :: rest) := rfl
  rw [hskip2]
  simp only [parseVal_str]
  rfl

theorem jsonEncodeResource_eq (r : Resource) (rest : List Char) :
    jsonEncodeResource r ++ rest =
      '{' :: (jsonEncodeString "gid" ++ ':' :: (jsonEncodeString r.gid ++
        ',' :: (jsonEncodeString "name" ++ ':' :: (jsonEncodeString r.name ++
        ',' :: (jsonEncodeString "resource_type" ++ ':' ::
          (jsonEncodeString r.resourceType ++ '}' :: rest)))))) := by
  simp [jsonEncodeResource, List.append_assoc]

theorem parseVal_resource (fuel : Nat) (r : Resource) (rest : List Char) :
    parseVal (fuel + 5) (jsonEncodeResource r ++ rest) = some (resourceJVal r, rest) := by
  rw [jsonEncodeResource_eq]
  show parseVal ((fuel + 4) + 1) _ = _
  rw [parseVal_eq]
  rw [jsonEncodeString_eq]
  have hskip : ∀ (X : List Char), skipWs ('{' :: X) = '{' :: X := fun _ => rfl
  rw [hskip]
  have hskip2 : ∀ (X : List Char), skipWs ('"' :: X) = '"' :: X := fun _ => rfl
  simp only [hskip2]
  rw [← jsonEncodeString_eq]
  show (match parseMembers ((fuel + 2) + 2) (jsonEncodeString "gid" ++ ':' ::
      (jsonEncodeString r.gid ++ ',' :: (jsonEncodeString "name" ++ ':' ::
      (jsonEncodeString r.name ++ ',' :: (jsonEncodeString "resource_type" ++ ':' ::
      (jsonEncodeString r.resourceType ++ '}' :: rest)))))) with
    | some (ms, rest2) => some (JVal.obj ms, rest2)
    | none => none) = _
  rw [parseMembers_cons_str]
  show (match (match parseMembers ((fuel + 1) + 2) (jsonEncodeString "name" ++ ':' ::
      (jsonEncodeString r.name ++ ',' :: (jsonEncodeString "resource_type" ++ ':' ::
      (jsonEncodeString r.resourceType ++ '}' :: rest)))) with
      | some (ms, r2) => some (("gid", JVal.str r.gid) :: ms, r2)
      | none => none) with
    | some (ms, rest2) => some (JVal.obj ms, rest2)
    | none => none) = _
  rw [parseMembers_cons_str]
  show (match (match (match parseMembers (fuel + 2) (jsonEncodeString "resource_type" ++ ':' ::
      (jsonEncodeString r.resourceType ++ '}' :: rest)) with
      | some (ms, r2) => some (("name", JVal.str r.name) :: ms, r2)
      | none => none) with
      | some (ms, r2) => some (("gid", JVal.str r.gid) :: ms, r2)
      | none => none) with
    | some (ms, rest2) => some (JVal.obj ms, rest2)
    | none => none) = _
  rw [parseMembers_last_str]
  rfl

end AsanaExporter

namespace AsanaExporter

theorem parseElems_items : ∀ (rs : List Resource) (r0 : Resource) (fuel : Nat) (rest : List Char),
    parseElems (rs.length + fuel + 6) (encodeItems (r0 :: rs) ++ ']' :: rest) =
      some ((r0 :: rs).map resourceJVal, rest) := by
  intro rs
  induction rs with
  | nil =>
    intro r0 fuel rest
    have h : ([] : List Resource).length + fuel + 6 = (fuel + 5) + 1 := by simp
    rw [h]
    rw [show encodeItems [r0] = jsonEncodeResource r0 from rfl]
    rw [parseElems_eq, parseVal_resource]
    rfl
  | cons r1 rs ih =>
    intro r0 fuel rest
    have h : (r1 :: rs).length + fuel + 6 = (rs.length + fuel + 6) + 1 := by
      simp only [List.length_cons]
      omega
    rw [h]
    rw [show encodeItems (r0 :: r1 :: rs) =
      jsonEncodeResource r0 ++ ',' :: encodeItems (r1 :: rs) from rfl]
    rw [parseElems_eq, List.append_assoc, List.cons_append]
    have hv : parseVal (rs.length + fuel + 6)
        (jsonEncodeResource r0 ++ ',' :: (encodeItems (r1 :: rs) ++ ']' :: rest)) =
        some (resourceJVal r0, ',' :: (encodeItems (r1 :: rs) ++ ']' :: rest)) := by
      have h2 : rs.length + fuel + 6 = (rs.length + fuel + 1) + 5 := by omega
      rw [h2, parseVal_resource]
    rw [hv]
    have hskip : skipWs (',' :: (encodeItems (r1 :: rs) ++ ']' :: rest)) =
        ',' :: (encodeItems (r1 :: rs) ++ ']' :: rest) := rfl
    show (match skipWs (',' :: (encodeItems (r1 :: rs) ++ ']' :: rest)) with
      | ',' :: rest2 =>
        (match parseElems (rs.length + fuel + 6) rest2 with
         | some (vs, rest3) => some (resourceJVal r0 :: vs, rest3)
         | none => none)
      | ']' :: rest2 => some ([resourceJVal r0], rest2)
      | _ => none) = _
    rw [hskip]
    show (match parseElems (rs.length + fuel + 6) (encodeItems (r1 :: rs) ++ ']' :: rest) with
      | some (vs, rest3) => some (resourceJVal r0 :: vs, rest3)
      | none => none) = _
    rw [ih r1 fuel rest]
    rfl

theorem encodeItems_cons_head (r0 : Resource) (rs : List Resource) (tail : List Char) :
    ∃ Y, encodeItems (r0 :: rs) ++ tail = '{' :: Y := by
  cases rs with
  | nil =>
    rw [show encodeItems [r0] = jsonEncodeResource r0 from rfl, jsonEncodeResource_eq]
    exact ⟨_, rfl⟩
  | cons r1 rs2 =>
    rw [show encodeItems (r0 :: r1 :: rs2) =
      jsonEncodeResource r0 ++ ',' :: encodeItems (r1 :: rs2) from rfl,
      List.append_assoc, List.cons_append, jsonEncodeResource_eq]
    exact ⟨_, rfl⟩

theorem parseVal_arr (rs : List Resource) (fuel : Nat) (rest : List Char) :
    parseVal (rs.length + fuel + 7) ('[' :: (encodeItems rs ++ ']' :: '}' :: rest)) =
      some (JVal.arr (rs.map resourceJVal), '}' :: rest) := by
  have h : rs.length + fuel + 7 = (rs.length + fuel + 6) + 1 := by omega
  rw [h, parseVal_eq]
  cases rs with
  | nil => rfl
  | cons r0 rs2 =>
    obtain ⟨Y, hY⟩ := encodeItems_cons_head r0 rs2 (']' :: '}' :: rest)
    show (match skipWs (encodeItems (r0 :: rs2) ++ ']' :: '}' :: rest) with
      | ']' :: rest2 => some (JVal.arr [], rest2)
      | cs2 =>
        match parseElems ((r0 :: rs2).length + fuel + 6) cs2 with
        | some (es, rest2) => some (JVal.arr es, rest2)
        | none => none) = _
    rw [hY]
    have hskip : skipWs ('{' :: Y) = '{' :: Y := rfl
    rw [hskip]
    show (match parseElems ((r0 :: rs2).length + fuel + 6) ('{' :: Y) with
      | some (es, rest2) => some (JVal.arr es, rest2)
      | none => none) = _
    rw [← hY]
    have harith : (r0 :: rs2).length + fuel + 6 = rs2.length + (fuel + 1) + 6 := by
      simp only [List.length_cons]
      omega
    rw [harith, parseElems_items]
theorem parseVal_data (rs : List Resource) (fuel : Nat) (rest : List Char) :
    parseVal (rs.length + fuel + 9) ((jsonEncodeData rs).data ++ rest) =
      some (JVal.obj [("data", JVal.arr (rs.map resourceJVal))], rest) := by
  have hform : (jsonEncodeData rs).data ++ rest =
      '{' :: '"' :: 'd' :: 'a' :: 't' :: 'a' :: '"' :: ':' :: '[' ::
        (encodeItems rs ++ ']' :: '}' :: rest) := by
    show ('{' :: (jsonEncodeString "data" ++ ':' :: '[' ::
      (encodeItems rs ++ ']' :: ['}']))) ++ rest = _
    rw [show jsonEncodeString "data" = ['"', 'd', 'a', 't', 'a', '"'] from rfl]
    simp [List.append_assoc]
  rw [hform]
  have h : rs.length + fuel + 9 = (rs.length + fuel + 8) + 1 := by omega
  rw [h, parseVal_eq]
  show (match parseMembers (rs.length + fuel + 8)
      ('"' :: 'd' :: 'a' :: 't' :: 'a' :: '"' :: ':' :: '[' ::
        (encodeItems rs ++ ']' :: '}' :: rest)) with
    | some (ms, rest2) => some (JVal.obj ms, rest2)
    | none => none) = _
  have h2 : rs.length + fuel + 8 = (rs.length + fuel + 7) + 1 := by omega
  rw [h2, parseMembers_eq]
  show (match (match parseVal (rs.length + fuel + 7)
      ('[' :: (encodeItems rs ++ ']' :: '}' :: rest)) with
    | none => none
    | some (v, rest4) =>
      match skipWs rest4 with
      | ',' :: rest5 =>
        (match parseMembers (rs.length + fuel + 7) rest5 with
         | some (ms, rest6) => some (("data", v) :: ms, rest6)
         | none => none)
      | '}' :: rest5 => some ([("data", v)], rest5)
      | _ => none) with
    | some (ms, rest2) => some (JVal.obj ms, rest2)
    | none => none) = _
  rw [parseVal_arr]
  rfl

theorem decodeResource_resourceJVal (r : Resource) :
    decodeResource (resourceJVal r) = Except.ok r := by
  obtain ⟨g, n, t⟩ := r
  rfl

theorem decodeResources_map (rs : List Resource) :
    decodeResources (rs.map resourceJVal) = Except.ok rs := by
  induction rs with
  | nil => rfl
  | cons r rs ih =>
    rw [List.map_cons]
    show (match decodeResource (resourceJVal r) with
      | Except.error e => Except.error e
      | Except.ok r1 =>
        match decodeResources (rs.map resourceJVal) with
        | Except.error e => Except.error e
        | Except.ok rs1 => Except.ok (r1 :: rs1)) = _
    rw [decodeResource_resourceJVal, ih]

theorem jsonEncodeResource_length_pos (r : Resource) :
    1 ≤ (jsonEncodeResource r).length := by
  rw [jsonEncodeResource]
  simp

theorem encodeItems_length_ge (rs : List Resource) :
    rs.length ≤ (encodeItems rs).length := by
  induction rs with
  | nil => simp [encodeItems]
  | cons r rs ih =>
    cases rs with
    | nil =>
      have := jsonEncodeResource_length_pos r
      rw [show encodeItems [r] = jsonEncodeResource r from rfl]
      simpa using this
    | cons r1 rs2 =>
      have h1 := jsonEncodeResource_length_pos r
      rw [show encodeItems (r :: r1 :: rs2) =
        jsonEncodeResource r ++ ',' :: encodeItems (r1 :: rs2) from rfl]
      simp only [List.length_append, List.length_cons] at ih ⊢
      omega

theorem resourcesFn_encode (rs : List Resource) :
    resourcesFn (jsonEncodeData rs) = Except.ok rs := by
  have h2 : (jsonEncodeData rs).data.length = (encodeItems rs).length + 11 := by
    show ('{' :: (jsonEncodeString "data" ++ ':' :: '[' ::
      (encodeItems rs ++ ']' :: ['}']))).length = _
    rw [show jsonEncodeString "data" = ['"', 'd', 'a', 't', 'a', '"'] from rfl]
    simp [List.length_append]
  have hlen : rs.length + 9 ≤ 2 * (jsonEncodeData rs).data.length + 2 := by
    have h1 := encodeItems_length_ge rs
    omega
  have heq : 2 * (jsonEncodeData rs).data.length + 2 =
      rs.length + (2 * (jsonEncodeData rs).data.length + 2 - rs.length - 9) + 9 := by
    omega
  rw [resourcesFn, parseJson, heq]
  rw [show (jsonEncodeData rs).data =
    (jsonEncodeData rs).data ++ ([] : List Char) by simp]
  rw [parseVal_data]
  show (match resourcesJVal (JVal.obj [("data", JVal.arr (rs.map resourceJVal))]) with
    | Except.error e => Except.error (GoError.wrap "unmarshal data" e)
    | Except.ok rs1 => Except.ok rs1) = _
  have hr : resourcesJVal (JVal.obj [("data", JVal.arr (rs.map resourceJVal))]) =
      (match decodeResources (rs.map resourceJVal) with
       | Except.error e => Except.error e
       | Except.ok rs1 => Except.ok rs1) := rfl
  rw [hr, decodeResources_map]

theorem decodeDataFields_nodata : ∀ (fields : List (String × JVal)),
    (∀ kv ∈ fields, ciEq kv.1 "data" = false) →
    decodeDataFields fields [] = Except.ok [] := by
  intro fields
  induction fields with
  | nil => intro _; rfl
  | cons kv rest ih =>
    intro h
    obtain ⟨k, v⟩ := kv
    have hk : ciEq k "data" = false := h (k, v) (List.mem_cons_self _ _)
    show (if ciEq k "data" = true then _ else decodeDataFields rest []) = _
    rw [hk]
    simp only [Bool.false_eq_true, if_false]
    exact ih (fun kv hm => h kv (List.mem_cons_of_mem _ hm))

/-- C6: decoding behavior of `resources`.  Malformed payloads (those the
JSON grammar rejects) fail with the decode error wrapping the syntax
error and so yield zero resources; a well-formed payload whose `data`
array holds N encoded resources decodes to exactly those N resources in
input order with all three fields preserved verbatim (stated as a round
trip through the payload generator, for every resource list including
ones whose fields need escaping); and a well-formed object payload with
no `data` member yields zero resources without error. -/
theorem resources_decoder_spec :
    (∀ s : String, parseJson s = none →
        resourcesFn s = Except.error (GoError.wrap "unmarshal data" GoError.jsonSyntax)) ∧
      (∀ rs : List Resource, resourcesFn (jsonEncodeData rs) = Except.ok rs) ∧
      (∀ (s : String) (fields : List (String × JVal)),
        parseJson s = some (JVal.obj fields) →
        (∀ kv ∈ fields, ciEq kv.1 "data" = false) →
        resourcesFn s = Except.ok []) := by
  refine ⟨?_, resourcesFn_encode, ?_⟩
  · intro s h
    rw [resourcesFn, h]
  · intro s fields hp hnone
    rw [resourcesFn, hp]
    show (match resourcesJVal (JVal.obj fields) with
      | Except.error e => Except.error (GoError.wrap "unmarshal data" e)
      | Except.ok rs => Except.ok rs) = _
    rw [show resourcesJVal (JVal.obj fields) = decodeDataFields fields [] from rfl]
    rw [decodeDataFields_nodata fields hnone]

/-- Witness for C6 at concrete inputs: a malformed payload, the two-resource
payload of the repository's own test, and an object without a data member. -/
theorem resources_decoder_spec_witness :
    resourcesFn "not json" =
        Except.error (GoError.wrap "unmarshal data" GoError.jsonSyntax) ∧
      resourcesFn (jsonEncodeData [⟨"1", "Test1", "project"⟩, ⟨"2", "Test2", "project"⟩]) =
        Except.ok [⟨"1", "Test1", "project"⟩, ⟨"2", "Test2", "project"⟩] ∧
      resourcesFn "\x7b\"other\": 1\x7d" = Except.ok [] := by
  refine ⟨resources_decoder_spec.1 "not json" rfl,
    resources_decoder_spec.2.1 _,
    resources_decoder_spec.2.2 "\x7b\"other\": 1\x7d" [("other", JVal.num "1")] ?_ ?_⟩
  · rfl
  · intro kv hm
    simp only [List.mem_singleton] at hm
    subst hm
    decide

end AsanaExporter

namespace AsanaExporter

theorem export_cancelled_before_start (client : Client) (entrypoint resource : String)
    (responses : List Resp) (cwd : String) (ts : Nat → String) (fs : Fs) :
    exportMain true client entrypoint resource responses cwd ts fs =
      (Except.error GoError.canceled, fs, 0, 0) := rfl

theorem validEndpoint_contains_counterexample :
    specValidEndpoint "http://mylocalhost.example" = true ∧
      validEndpoint "http://mylocalhost.example" = false ∧
      Request (NewClient "t" 60).1 false "http://mylocalhost.example" none =
        (Except.error GoError.invalidEndpoint, 0, 0) := by
  refine ⟨by decide, by decide, rfl⟩

theorem validEndpoint_cases (url : String) (u : GoURL)
    (hp : parseURL url = some u) (h0 : ¬ goTrimSpace url = "") :
    (validEndpoint url = true) ↔
      (¬(u.scheme = "" ∨ u.host = "") ∧
        ¬(String.mk (u.scheme.data.map asciiLower) ≠ "http" ∧
          String.mk (u.scheme.data.map asciiLower) ≠ "https") ∧
        ¬(u.fragment ≠ "") ∧ ¬(u.user.isSome = true) ∧
        ¬(goContains (String.mk (u.host.data.map asciiLower)) "localhost" = true ∨
          goContains (String.mk (u.host.data.map asciiLower)) "127.0.0.1" = true ∨
          goContains (String.mk (u.host.data.map asciiLower)) "::1" = true) ∧
        ¬(2048 < url.utf8ByteSize)) := by
  rw [validEndpoint, if_neg h0, hp]
  dsimp only
  by_cases c1 : u.scheme = "" ∨ u.host = ""
  · rw [if_pos c1]
    exact iff_of_false (by simp) (fun hr => hr.1 c1)
  rw [if_neg c1]
  by_cases c2 : String.mk (u.scheme.data.map asciiLower) ≠ "http" ∧
      String.mk (u.scheme.data.map asciiLower) ≠ "https"
  · rw [if_pos c2]
    exact iff_of_false (by simp) (fun hr => hr.2.1 c2)
  rw [if_neg c2]
  by_cases c3 : u.fragment ≠ ""
  · rw [if_pos c3]
    exact iff_of_false (by simp) (fun hr => hr.2.2.1 c3)
  rw [if_neg c3]
  by_cases c4 : u.user.isSome = true
  · rw [if_pos c4]
    exact iff_of_false (by simp) (fun hr => hr.2.2.2.1 c4)
  rw [if_neg c4]
  by_cases c5 : goContains (String.mk (u.host.data.map asciiLower)) "localhost" = true ∨
      goContains (String.mk (u.host.data.map asciiLower)) "127.0.0.1" = true ∨
      goContains (String.mk (u.host.data.map asciiLower)) "::1" = true
  · rw [if_pos c5]
    exact iff_of_false (by simp) (fun hr => hr.2.2.2.2.1 c5)
  rw [if_neg c5]
  by_cases c6 : 2048 < url.utf8ByteSize
  · rw [if_pos c6]
    exact iff_of_false (by simp) (fun hr => hr.2.2.2.2.2 c6)
  rw [if_neg c6]
  exact iff_of_true rfl ⟨c1, c2, c3, c4, c5, c6⟩

theorem validEndpoint_none (url : String) (hp : parseURL url = none) :
    validEndpoint url = false := by
  rw [validEndpoint]
  by_cases h0 : goTrimSpace url = ""
  · rw [if_pos h0]
  · rw [if_neg h0, hp]

/-- C8 amended: `Request` returns the invalid-endpoint error with no
rate-limiter wait and no network call exactly on the URLs `validEndpoint`
rejects; and `validEndpoint` accepts a URL precisely when it is non-blank,
parses, has a non-empty HTTP or HTTPS scheme and non-empty host, no
fragment, no userinfo, a lower-cased host that does not CONTAIN
`localhost`, `127.0.0.1` or `::1` as a substring (the code uses
`strings.Contains`, not equality), and is at most 2048 bytes long. -/
theorem validEndpoint_spec (c : Client) (ctx : Bool) (url : String)
    (transport : Option Resp) :
    (validEndpoint url = false →
      Request c ctx url transport = (Except.error GoError.invalidEndpoint, 0, 0)) ∧
    (validEndpoint url = true ↔
      (goTrimSpace url ≠ "" ∧ ∃ u, parseURL url = some u ∧ u.scheme ≠ "" ∧ u.host ≠ "" ∧
        (String.mk (u.scheme.data.map asciiLower) = "http" ∨
          String.mk (u.scheme.data.map asciiLower) = "https") ∧
        u.fragment = "" ∧ u.user = none ∧
        goContains (String.mk (u.host.data.map asciiLower)) "localhost" = false ∧
        goContains (String.mk (u.host.data.map asciiLower)) "127.0.0.1" = false ∧
        goContains (String.mk (u.host.data.map asciiLower)) "::1" = false ∧
        url.utf8ByteSize ≤ 2048)) := by
  constructor
  · intro h
    simp [Request, h]
  · by_cases h0 : goTrimSpace url = ""
    · rw [validEndpoint, if_pos h0]
      simp [h0]
    · cases hp : parseURL url with
      | none =>
        rw [validEndpoint_none url hp]
        constructor
        · intro h; cases h
        · rintro ⟨-, u, hu, -⟩
          cases hu
      | some u =>
        rw [validEndpoint_cases url u hp h0]
        constructor
        · rintro ⟨c1, c2, c3, c4, c5, c6⟩
          push_neg at c1 c2 c3 c5
          refine ⟨h0, u, rfl, c1.1, c1.2, ?_, c3, ?_, ?_, ?_, ?_, by omega⟩
          · by_cases hhttp : String.mk (u.scheme.data.map asciiLower) = "http"
            · exact Or.inl hhttp
            · exact Or.inr (c2 hhttp)
          · cases hu : u.user with
            | none => rfl
            | some x => exact absurd (by simp [hu] : u.user.isSome = true) c4
          · simpa using c5.1
          · simpa using c5.2.1
          · simpa using c5.2.2
        · rintro ⟨-, u', hu', hs, hh, hsch, hf, hus, hc1, hc2, hc3, hlen⟩
          injection hu' with hu2
          subst hu2
          refine ⟨?_, ?_, ?_, ?_, ?_, by omega⟩
          · rintro (hx | hx)
            · exact hs hx
            · exact hh hx
          · rintro ⟨hx, hy⟩
            rcases hsch with hz | hz
            · exact hx hz
            · exact hy hz
          · intro hx; exact hx hf
          · rw [hus]; simp
          · rintro (hx | hx | hx)
            · rw [hc1] at hx; cases hx
            · rw [hc2] at hx; cases hx
            · rw [hc3] at hx; cases hx

theorem validEndpoint_spec_witness :
    Request (NewClient "t" 60).1 false "ftp://example.com" none =
      (Except.error GoError.invalidEndpoint, 0, 0) ∧
    validEndpoint "https://app.asana.com/api/1.0" = true := by
  refine ⟨(validEndpoint_spec (NewClient "t" 60).1 false "ftp://example.com" none).1
    (by decide), ?_⟩
  exact (validEndpoint_spec (NewClient "t" 60).1 false "https://app.asana.com/api/1.0"
    none).2.mpr ⟨by decide, ⟨"https", none, "app.asana.com", "/api/1.0", "", ""⟩,
      by decide, by decide, by decide, by decide, by decide, by decide,
      by decide, by decide, by decide, by decide⟩

theorem storeLoop4_nil (cwd dataDir rcDir resource : String) (ts : Nat → String)
    (i : Nat) (fs : Fs) :
    storeLoop4 false cwd dataDir rcDir resource ts [] i fs = (Except.ok (), fs, 0) := rfl

theorem storeLoop4_cons (cwd dataDir rcDir resource : String) (ts : Nat → String)
    (rc : Resource) (rest : List Resource) (i : Nat) (fs : Fs) :
    storeLoop4 false cwd dataDir rcDir resource ts (rc :: rest) i fs =
      (match storeResource4 cwd dataDir rc (filename4 rcDir resource rc.name (ts i)) fs with
       | (Except.error e, fs1) => (Except.error (GoError.wrap "store resource" e), fs1, 1)
       | (Except.ok _, fs1) =>
         match storeLoop4 false cwd dataDir rcDir resource ts rest (i + 1) fs1 with
         | (r, fs2, k) => (r, fs2, k + 1)) := rfl

theorem storeLoop4_append (cwd dataDir rcDir resource : String) (ts : Nat → String) :
    ∀ (pre rest : List Resource) (i : Nat) (fs fs2 : Fs),
    storeLoop4 false cwd dataDir rcDir resource ts pre i fs =
      (Except.ok (), fs2, pre.length) →
    storeLoop4 false cwd dataDir rcDir resource ts (pre ++ rest) i fs =
      (match storeLoop4 false cwd dataDir rcDir resource ts rest (i + pre.length) fs2 with
       | (r, f, k) => (r, f, k + pre.length)) := by
  intro pre
  induction pre with
  | nil =>
    intro rest i fs fs2 h
    rw [storeLoop4_nil] at h
    have hfs : fs = fs2 := by
      have := congrArg (fun t => t.2.1) h
      simpa using this
    subst hfs
    simp only [List.nil_append, List.length_nil, Nat.add_zero]
  | cons rc0 pre ih =>
    intro rest i fs fs2 h
    rw [storeLoop4_cons] at h
    rcases hst : storeResource4 cwd dataDir rc0
      (filename4 rcDir resource rc0.name (ts i)) fs with ⟨res, fs1⟩
    rw [hst] at h
    cases res with
    | error e => simp at h
    | ok u =>
      dsimp only at h
      rcases hrec : storeLoop4 false cwd dataDir rcDir resource ts pre (i + 1) fs1
        with ⟨r, f2, k⟩
      rw [hrec] at h
      have h3 : r = Except.ok () ∧ f2 = fs2 ∧ k + 1 = pre.length + 1 := by
        simpa [Prod.ext_iff, List.length_cons] using h
      obtain ⟨hr, hf2, hk⟩ := h3
      have hk2 : k = pre.length := by omega
      rw [hr, hf2, hk2] at hrec
      rw [List.cons_append, storeLoop4_cons, hst]
      dsimp only
      rw [ih rest (i + 1) fs1 fs2 hrec]
      have hidx : i + (rc0 :: pre).length = (i + 1) + pre.length := by
        simp only [List.length_cons]
        omega
      rw [hidx]
      rcases hz : storeLoop4 false cwd dataDir rcDir resource ts rest
        ((i + 1) + pre.length) fs2 with ⟨rz, fz, kz⟩
      dsimp only
      simp only [Prod.mk.injEq, List.length_cons]
      refine ⟨trivial, trivial, by omega⟩

/-- C3: the export pipeline of src/unnamed/part_004 is fail-fast on
persistence: if decoding yields `pre ++ rc :: post`, the directory ensure
succeeds, the stores of `pre` all succeed, and storing `rc` fails with
`e`, then the pipeline stops immediately with the wrapped error: exactly
`pre.length + 1` store attempts are made (none of `post` is attempted) and
the result is that error, not success. -/
theorem export_store_failfast (cwd dataDir resource data dir : String)
    (ts : Nat → String) (fs : Fs) (pre post : List Resource) (rc : Resource)
    (fs1 fs2 fs3 : Fs) (e : GoError)
    (hdec : resourcesFn data = Except.ok (pre ++ rc :: post))
    (hdir : resourceDir4 cwd fs (dir ++ "/" ++ resource) = (Except.ok (), fs1))
    (hpre : storeLoop4 false cwd dataDir (dir ++ "/" ++ resource) resource ts pre 0 fs1 =
      (Except.ok (), fs2, pre.length))
    (hfail : storeResource4 cwd dataDir rc
      (filename4 (dir ++ "/" ++ resource) resource rc.name (ts pre.length)) fs2 =
      (Except.error e, fs3)) :
    export4 false cwd dataDir resource data dir ts fs =
      (Except.error (GoError.wrap "store resource" e), fs3, pre.length + 1) := by
  have he : export4 false cwd dataDir resource data dir ts fs =
      (match resourcesFn data with
       | Except.error e => (Except.error (GoError.wrap "retrieve resources" e), fs, 0)
       | Except.ok rs =>
         match resourceDir4 cwd fs (dir ++ "/" ++ resource) with
         | (Except.error e2, fsa) =>
           (Except.error (GoError.wrap "resource directory" e2), fsa, 0)
         | (Except.ok _, fsa) =>
           storeLoop4 false cwd dataDir (dir ++ "/" ++ resource) resource ts rs 0 fsa) := rfl
  rw [he, hdec]
  show (match resourceDir4 cwd fs (dir ++ "/" ++ resource) with
    | (Except.error e2, fsa) =>
      (Except.error (GoError.wrap "resource directory" e2), fsa, 0)
    | (Except.ok _, fsa) =>
      storeLoop4 false cwd dataDir (dir ++ "/" ++ resource) resource ts
        (pre ++ rc :: post) 0 fsa) = _
  rw [hdir]
  show storeLoop4 false cwd dataDir (dir ++ "/" ++ resource) resource ts
    (pre ++ rc :: post) 0 fs1 = _
  rw [storeLoop4_append cwd dataDir (dir ++ "/" ++ resource) resource ts pre
    (rc :: post) 0 fs1 fs2 hpre]
  rw [storeLoop4_cons]
  have hidx : (0 : Nat) + pre.length = pre.length := by omega
  rw [hidx, hfail]
  dsimp only
  rw [Nat.add_comm]

/-- Witness for C3 at concrete inputs: three decoded resources, the second
of which has a slash in its name, so its store fails with a create error
after one successful store; exactly two attempts are made. -/
theorem export_store_failfast_witness :
    export4 false "/w" "d" "project"
        (jsonEncodeData [⟨"1", "a", "project"⟩, ⟨"2", "b/c", "project"⟩,
          ⟨"3", "e", "project"⟩]) "d" (fun _ => "T") [] =
      (Except.error (GoError.wrap "store resource"
          (GoError.createFail "d/project/project_b/c_T.json")),
        [(["project_a_T.json", "project", "d", "w"],
            FNode.file 0o600 (encodeResourceLine ⟨"1", "a", "project"⟩)),
          (["project", "d", "w"], FNode.dir 0o755),
          (["d", "w"], FNode.dir 0o755),
          (["w"], FNode.dir 0o755)], 2) :=
  export_store_failfast "/w" "d" "project"
    (jsonEncodeData [⟨"1", "a", "project"⟩, ⟨"2", "b/c", "project"⟩,
      ⟨"3", "e", "project"⟩]) "d" (fun _ => "T") []
    [⟨"1", "a", "project"⟩] [⟨"3", "e", "project"⟩] ⟨"2", "b/c", "project"⟩
    [(["project", "d", "w"], FNode.dir 0o755),
      (["d", "w"], FNode.dir 0o755),
      (["w"], FNode.dir 0o755)]
    [(["project_a_T.json", "project", "d", "w"],
        FNode.file 0o600 (encodeResourceLine ⟨"1", "a", "project"⟩)),
      (["project", "d", "w"], FNode.dir 0o755),
      (["d", "w"], FNode.dir 0o755),
      (["w"], FNode.dir 0o755)]
    [(["project_a_T.json", "project", "d", "w"],
        FNode.file 0o600 (encodeResourceLine ⟨"1", "a", "project"⟩)),
      (["project", "d", "w"], FNode.dir 0o755),
      (["d", "w"], FNode.dir 0o755),
      (["w"], FNode.dir 0o755)]
    (GoError.createFail "d/project/project_b/c_T.json")
    (resourcesFn_encode _) (by rfl) (by rfl) (by rfl)

end AsanaExporter


namespace AsanaExporter

theorem leadingInt_digits : ∀ (cs : List Char) (x : Nat),
    cs.all isDigitChar = true →
    leadingInt x cs = none ∨ ∃ v, leadingInt x cs = some (v, []) := by
  intro cs
  induction cs with
  | nil => intro x h; right; exact ⟨x, rfl⟩
  | cons c t ih =>
    intro x h
    simp only [List.all_cons, Bool.and_eq_true] at h
    rw [leadingInt, if_pos h.1]
    split_ifs with h1 h2
    · left; rfl
    · left; rfl
    · exact ih _ h.2

theorem parseDurChunks_digits (c : Char) (t : List Char) (fuel d : Nat)
    (h : (c :: t).all isDigitChar = true) :
    parseDurChunks (fuel + 1) (c :: t) d = none := by
  have h1 : isDigitChar c = true := by
    simp only [List.all_cons, Bool.and_eq_true] at h
    exact h.1
  have hcond : (c == '.' || isDigitChar c) = true := by
    rw [h1]
    simp
  rcases leadingInt_digits (c :: t) 0 h with hnone | ⟨v, hsome⟩
  · rw [parseDurChunks, if_pos hcond, hnone]
  · rw [parseDurChunks, if_pos hcond, hsome]
    simp [List.length_cons, spanUnit]

theorem goParseDuration_signedDigits (s : String) (n : Int)
    (hsd : signedDigits s = some n) (hz : zeroBody s = false) :
    goParseDuration s = none := by
  unfold signedDigits at hsd
  unfold zeroBody at hz
  unfold goParseDuration
  rcases hss : stripSign s.data with ⟨neg, rest⟩
  rw [hss] at hsd hz
  dsimp only at hsd hz ⊢
  by_cases he : rest = []
  · rw [if_pos he] at hsd
    cases hsd
  · rw [if_neg he] at hsd
    by_cases hd : rest.all isDigitChar = true
    · have hz0 : rest ≠ ['0'] := by
        intro hr
        rw [hr] at hz
        simp at hz
      rw [if_neg hz0, if_neg he]
      obtain ⟨c, t, rfl⟩ : ∃ c t, rest = c :: t := by
        cases rest with
        | nil => exact absurd rfl he
        | cons a b => exact ⟨a, b, rfl⟩
      rw [parseDurChunks_digits c t ((c :: t).length) 0 hd]
    · rw [if_neg hd] at hsd
      cases hsd

theorem goAtoi_signedDigits (s : String) (n : Int)
    (hsd : signedDigits s = some n)
    (hlo : -(2 ^ 63) ≤ n) (hhi : n ≤ 2 ^ 63 - 1) :
    goAtoi s = some n := by
  unfold signedDigits at hsd
  unfold goAtoi
  rcases hss : stripSign s.data with ⟨neg, rest⟩
  rw [hss] at hsd
  dsimp only at hsd ⊢
  by_cases he : rest = []
  · rw [if_pos he] at hsd
    cases hsd
  · rw [if_neg he] at hsd ⊢
    by_cases hd : rest.all isDigitChar = true
    · rw [if_pos hd] at hsd ⊢
      injection hsd with hn
      cases neg with
      | true =>
        simp only [eq_self_iff_true, if_true] at hn ⊢
        have hb : digitsVal rest ≤ 2 ^ 63 := by omega
        rw [if_pos hb, hn]
      | false =>
        simp only [Bool.false_eq_true, if_false] at hn ⊢
        have hb : digitsVal rest ≤ 2 ^ 63 - 1 := by omega
        rw [if_pos hb, hn]
    · rw [if_neg hd] at hsd
      cases hsd

theorem durMulSec_inrange (n : Int)
    (hlo : -(2 ^ 63) ≤ n * 1000000000) (hhi : n * 1000000000 ≤ 2 ^ 63 - 1) :
    durMulSec n = n * 1000000000 := by
  unfold durMulSec wrap64
  have h1 : 0 ≤ n * 1000000000 + 2 ^ 63 := by linarith
  have h2 : n * 1000000000 + 2 ^ 63 < 2 ^ 64 := by
    have h3 : (2 : Int) ^ 64 = 2 ^ 63 + 2 ^ 63 := by ring
    linarith
  rw [Int.emod_eq_of_lt h1 h2]
  ring

/-- C5: corrected reading of `retryAfter`.  A string `time.ParseDuration`
accepts yields exactly the parsed duration.  Otherwise any optionally
SIGNED plain decimal integer `n` (the claim says non-negative) whose value
in nanoseconds fits `int64` yields exactly `n` seconds — including
negative waits such as `-30`.  Otherwise a parseable HTTP date strictly in
the future yields `time.Until` of it, and everything else (including a
past or present date) yields the 5-second default. -/
theorem retryAfter_spec (now : Int) (s : String) :
    (∀ d, goParseDuration s = some d → retryAfterGo now s = d) ∧
      (∀ n, signedDigits s = some n → zeroBody s = false →
        -(2 ^ 63) ≤ n * 1000000000 → n * 1000000000 ≤ 2 ^ 63 - 1 →
        retryAfterGo now s = n * 1000000000) ∧
      (∀ t, goParseDuration s = none → goAtoi s = none →
        httpParseTime s = some t →
        retryAfterGo now s =
          if 0 < timeUntil now t then timeUntil now t else 5 * 1000000000) ∧
      (goParseDuration s = none → goAtoi s = none → httpParseTime s = none →
        retryAfterGo now s = 5 * 1000000000) := by
  refine ⟨?_, ?_, ?_, ?_⟩
  · intro d h
    unfold retryAfterGo
    rw [h]
  · intro n hsd hz hlo hhi
    have hn_hi : n ≤ 2 ^ 63 - 1 := by
      rcases le_or_lt 0 n with hp | hp
      · nlinarith
      · have h0 : (0 : Int) ≤ 2 ^ 63 - 1 := by norm_num
        linarith
    have hn_lo : -(2 ^ 63) ≤ n := by
      rcases le_or_lt 0 n with hp | hp
      · have h0 : (0 : Int) ≤ 2 ^ 63 := by positivity
        linarith
      · nlinarith
    have hdur := goParseDuration_signedDigits s n hsd hz
    have hatoi := goAtoi_signedDigits s n hsd hn_lo hn_hi
    unfold retryAfterGo
    rw [hdur]
    dsimp only
    rw [hatoi]
    dsimp only
    exact durMulSec_inrange n hlo hhi
  · intro t h1 h2 h3
    unfold retryAfterGo
    rw [h1]
    dsimp only
    rw [h2]
    dsimp only
    rw [h3]
  · intro h1 h2 h3
    unfold retryAfterGo
    rw [h1]
    dsimp only
    rw [h2]
    dsimp only
    rw [h3]

/-- C5 counterexample: `-30` is not a duration expression, not a plain
non-negative integer and not an HTTP date, so under the claim the wait
would be the 5-second default; the code's `strconv.Atoi` branch accepts
it and returns a negative wait of -30 seconds. -/
theorem retryAfter_negative_counterexample :
    goParseDuration "-30" = none ∧ plainNonNegInt "-30" = false ∧
      httpParseTime "-30" = none ∧
      retryAfterGo 0 "-30" = -(30 * 1000000000) ∧
      retryAfterGo 0 "-30" ≠ 5 * 1000000000 := by
  refine ⟨rfl, rfl, rfl, by decide, by decide⟩

/-- Witness for C5 at concrete inputs: a plain integer, a future HTTP
date (for `now` the epoch), and an unparseable string. -/
theorem retryAfter_spec_witness :
    retryAfterGo 0 "42" = 42 * 1000000000 ∧
      retryAfterGo 0 "Wed, 21 Oct 2015 07:28:00 GMT" =
        1445412480 * 1000000000 ∧
      retryAfterGo 0 "invalid" = 5 * 1000000000 := by
  refine ⟨(retryAfter_spec 0 "42").2.1 42 rfl rfl (by norm_num) (by norm_num),
    ?_, (retryAfter_spec 0 "invalid").2.2.2 rfl rfl rfl⟩
  have h := (retryAfter_spec 0 "Wed, 21 Oct 2015 07:28:00 GMT").2.2.1
    1445412480 rfl rfl rfl
  rw [h]
  decide

end AsanaExporter
